import Mathlib

/-!
Verification development for the `costanza` repository (rust).

The definitions below are a shallow embedding of the core modules:
  * `src/costanza-mid/src/eff.rs`               (generic effect runtime)
  * `src/costanza-mid/src/app/mod.rs`           (the pure `Application`)
  * `src/costanza-mid/src/app/grbl/mod.rs`      (grbl response parsing)
  * `src/costanza-mid/src/effects/serial.rs`    (serial effect manager)
  * `src/costanza-mid/src/effects/ticker.rs`    (ticker effect manager)
  * `src/costanza-mid/src/effects/http/mod.rs`  (http effect manager / registry)

Modelling conventions:
  * rust `u32` values are `Nat` (bounds enforced where the code enforces them,
    e.g. json decoding of a `u32` field);
  * `std::time::Instant` values are abstract `Nat` timestamps, and the ambient
    `Instant::now()` is passed explicitly as a `now` parameter;
  * `HashMap<String, V>` is an association list `List (String × V)`;
  * fallible operations (`serde_json::from_str`, `FromStr`, channel `recv`)
    return `Option` / `Except`;
  * channel sends performed by the embedded code are modelled as succeeding
    (a failed send aborts the surrounding loop in the source; the claims under
    study quantify over the surviving executions).
-/

namespace Costanza

/-! ### Data model from `effects/serial.rs` and `app/mod.rs` -/

/-- `effects::serial::SerialConfiguration`: device path and baud rate. -/
structure SerialConfiguration where
  device : String
  baud : Nat
deriving DecidableEq, Repr

/-- `app::ClientMessageRequest`: the internally-tagged (`kind`) request enum. -/
inductive ClientMessageRequest where
  | rawSerial (value : String)
  | configuration (config : SerialConfiguration)
  | closeSerial
  | retrySerial
deriving DecidableEq, Repr

/-- `app::ClientMessage`: the client request envelope. The `request` field is a
separate (non-flattened) struct field in the source, so the json schema is
`{"tick": .., "request": {"kind": .., ..}}`. -/
structure ClientMessage where
  tick : Nat
  request : ClientMessageRequest
deriving DecidableEq, Repr

/-- `app::ClientHistoryEntry`. -/
inductive ClientHistoryEntry where
  | sentCommand (msg : ClientMessage)
  | receivedData (content : String)
deriving DecidableEq, Repr

/-- `app::DerivedClientState`. -/
structure DerivedClientState where
  tick : Nat
  history : List ClientHistoryEntry
  serial_available : Bool
  last_config : Option SerialConfiguration
deriving DecidableEq, Repr

/-- `Default for DerivedClientState`. -/
def DerivedClientState.default : DerivedClientState :=
  { tick := 0, history := [], serial_available := false, last_config := none }

/-- `app::SerialConnectionState`; `Instant` timestamps are abstract `Nat`s. -/
inductive SerialConnectionState where
  | disconnected
  | idle (lastPing : Option Nat)
  | pendingAttempt
  | sendingFile (remaining : String)
deriving DecidableEq, Repr

/-- `SerialConnectionState::available`. -/
def SerialConnectionState.available : SerialConnectionState → Bool
  | .idle _ => true
  | _ => false

/-- `app::DerivedSerialState`. -/
structure DerivedSerialState where
  connection : SerialConnectionState
  last_config : Option SerialConfiguration
deriving DecidableEq, Repr

/-- `DerivedSerialState::available`. -/
def DerivedSerialState.available (s : DerivedSerialState) : Bool :=
  s.connection.available

/-- `app::Application` state. -/
structure Application where
  last_broadcast : Option Nat
  connected_clients : List (String × DerivedClientState)
  serial : DerivedSerialState
deriving DecidableEq, Repr

/-! ### Commands and messages (`app/mod.rs`, `effects/http/mod.rs`) -/

/-- `effects::http::Command`. -/
inductive HttpCommand where
  | sendState (id : String) (payload : String)
deriving DecidableEq, Repr

/-- `effects::http::Message`. -/
inductive HttpMessage where
  | clientConnected (id : String)
  | clientData (id : String) (data : String)
  | fileUpload (contents : String)
  | clientDisconnected (id : String)
deriving DecidableEq, Repr

/-- `app::SerialCommand`. -/
inductive AppSerialCommand where
  | raw (text : String)
  | status
  | configure (config : SerialConfiguration)
  | control (enable : Bool)
deriving DecidableEq, Repr

/-- `app::Command`. -/
inductive Command where
  | serial (c : AppSerialCommand)
  | http (c : HttpCommand)
deriving DecidableEq, Repr

/-- `app::Message`. -/
inductive Message where
  | tick
  | broadcast
  | serial (data : String)
  | http (m : HttpMessage)
  | disconnectedSerial
  | connectedSerial
deriving DecidableEq, Repr

/-! ### A model of `serde_json` values

The application only ever reads integral (`u32`) and string fields, so json
numbers are modelled as integers; a payload with a fractional number simply
fails to parse, which the claims treat like any other unparseable payload. -/

/-- Json document model (numbers restricted to integers, see above). -/
inductive Json where
  | null
  | bool (b : Bool)
  | num (n : Int)
  | str (s : String)
  | arr (elems : List Json)
  | obj (fields : List (String × Json))
deriving Repr

/-- The `{` character, written via its code point. -/
def lbrace : Char := Char.ofNat 123

/-- The `}` character, written via its code point. -/
def rbrace : Char := Char.ofNat 125

/-- Json whitespace. -/
def isJsonWs (c : Char) : Bool :=
  c = ' ' || c = '\n' || c = '\t' || c = '\r'

/-- Skip whitespace. -/
def skipWs (cs : List Char) : List Char := cs.dropWhile isJsonWs

/-- Decimal digit test. -/
def isDigitChar (c : Char) : Bool := '0' ≤ c && c ≤ '9'

/-- Digit list to `Nat` (most significant first). -/
def digitsToNat (ds : List Char) : Nat :=
  ds.foldl (fun acc c => acc * 10 + (c.toNat - 48)) 0

/-- Parse the body of a json string literal (after the opening quote),
returning the decoded characters and the remainder after the closing quote. -/
def parseStringBody (acc : List Char) : List Char → Option (List Char × List Char)
  | [] => none
  | '"' :: rest => some (acc.reverse, rest)
  | '\\' :: e :: rest =>
    match e with
    | '"' => parseStringBody ('"' :: acc) rest
    | '\\' => parseStringBody ('\\' :: acc) rest
    | '/' => parseStringBody ('/' :: acc) rest
    | 'n' => parseStringBody ('\n' :: acc) rest
    | 't' => parseStringBody ('\t' :: acc) rest
    | 'r' => parseStringBody ('\r' :: acc) rest
    | 'b' => parseStringBody (Char.ofNat 8 :: acc) rest
    | 'f' => parseStringBody (Char.ofNat 12 :: acc) rest
    | _ => none
  | '\\' :: [] => none
  | c :: rest => parseStringBody (c :: acc) rest

/-- Parse a json number (integral only, optional leading minus). -/
def parseJsonNum (cs : List Char) : Option (Int × List Char) :=
  match cs with
  | '-' :: rest =>
    let ds := rest.takeWhile isDigitChar
    if ds.isEmpty then none
    else some (-(digitsToNat ds : Int), rest.dropWhile isDigitChar)
  | _ =>
    let ds := cs.takeWhile isDigitChar
    if ds.isEmpty then none
    else some ((digitsToNat ds : Int), cs.dropWhile isDigitChar)

mutual

/-- Fuel-indexed json value parsing (recursive descent). -/
def parseValue : Nat → List Char → Option (Json × List Char)
  | 0, _ => none
  | fuel + 1, cs =>
    match skipWs cs with
    | 'n' :: 'u' :: 'l' :: 'l' :: rest => some (.null, rest)
    | 't' :: 'r' :: 'u' :: 'e' :: rest => some (.bool true, rest)
    | 'f' :: 'a' :: 'l' :: 's' :: 'e' :: rest => some (.bool false, rest)
    | '"' :: rest =>
      match parseStringBody [] rest with
      | some (body, rest2) => some (.str (String.mk body), rest2)
      | none => none
    | '[' :: rest =>
      (match skipWs rest with
       | ']' :: rest2 => some (.arr [], rest2)
       | other =>
         match parseElems fuel other with
         | some (elems, rest2) => some (.arr elems, rest2)
         | none => none)
    | c :: rest =>
      if c = lbrace then
        match skipWs rest with
        | c2 :: rest2 =>
          if c2 = rbrace then some (.obj [], rest2)
          else
            (match parseMembers fuel (c2 :: rest2) with
             | some (fields, rest3) => some (.obj fields, rest3)
             | none => none)
        | [] => none
      else
        match parseJsonNum (c :: rest) with
        | some (n, rest2) => some (.num n, rest2)
        | none => none
    | [] => none

/-- Fuel-indexed parsing of array elements (after `[`, at least one element). -/
def parseElems : Nat → List Char → Option (List Json × List Char)
  | 0, _ => none
  | fuel + 1, cs =>
    match parseValue fuel cs with
    | none => none
    | some (v, rest) =>
      match skipWs rest with
      | ',' :: rest2 =>
        (match parseElems fuel rest2 with
         | some (vs, rest3) => some (v :: vs, rest3)
         | none => none)
      | ']' :: rest2 => some ([v], rest2)
      | _ => none

/-- Fuel-indexed parsing of object members (after `{`, at least one member). -/
def parseMembers : Nat → List Char → Option (List (String × Json) × List Char)
  | 0, _ => none
  | fuel + 1, cs =>
    match skipWs cs with
    | '"' :: rest =>
      (match parseStringBody [] rest with
       | none => none
       | some (key, rest2) =>
         match skipWs rest2 with
         | ':' :: rest3 =>
           (match parseValue fuel rest3 with
            | none => none
            | some (v, rest4) =>
              match skipWs rest4 with
              | ',' :: rest5 =>
                (match parseMembers fuel rest5 with
                 | some (fields, rest6) => some ((String.mk key, v) :: fields, rest6)
                 | none => none)
              | c :: rest5 =>
                if c = rbrace then some ([(String.mk key, v)], rest5) else none
              | [] => none)
         | _ => none)
    | _ => none

end

/-- `serde_json::from_str::<Json-value>`: a whole-input json document parse. -/
def parseJson (s : String) : Option Json :=
  match parseValue (s.length + 1) s.data with
  | some (j, rest) => if (skipWs rest).isEmpty then some j else none
  | none => none

/-- First field of a json object with the given name. -/
def jsonField (fields : List (String × Json)) (name : String) : Option Json :=
  (fields.find? (fun p => p.1 = name)).map (·.2)

/-- Decode a json value as a rust `u32` (rejecting out-of-range values). -/
def decodeU32 : Json → Option Nat
  | .num n => if 0 ≤ n ∧ n < 4294967296 then some n.toNat else none
  | _ => none

/-- Decode a json value as a string. -/
def decodeString : Json → Option String
  | .str s => some s
  | _ => none

/-- Derived `Deserialize` for `ClientMessageRequest` (internally tagged by
`kind`, snake_case variant names). -/
def decodeClientMessageRequest : Json → Option ClientMessageRequest
  | .obj fields =>
    match jsonField fields "kind" with
    | some (.str "raw_serial") =>
      match (jsonField fields "value").bind decodeString with
      | some v => some (.rawSerial v)
      | none => none
    | some (.str "configuration") =>
      match (jsonField fields "device").bind decodeString,
            (jsonField fields "baud").bind decodeU32 with
      | some d, some b => some (.configuration ⟨d, b⟩)
      | _, _ => none
    | some (.str "close_serial") => some .closeSerial
    | some (.str "retry_serial") => some .retrySerial
    | _ => none
  | _ => none

/-- Derived `Deserialize` for `ClientMessage` (plain struct with `tick` and a
nested `request` field). -/
def decodeClientMessage : Json → Option ClientMessage
  | .obj fields =>
    match (jsonField fields "tick").bind decodeU32,
          (jsonField fields "request").bind decodeClientMessageRequest with
    | some t, some r => some ⟨t, r⟩
    | _, _ => none
  | _ => none

/-- `serde_json::from_str::<ClientMessage>` as used in `Application::update`. -/
def parseClientMessage (payload : String) : Option ClientMessage :=
  (parseJson payload).bind decodeClientMessage

/-! ### `serde_json::to_string` for the server → client payloads -/

/-- Lower-case hex digit. -/
def hexDigit (n : Nat) : Char :=
  if n < 10 then Char.ofNat (48 + n) else Char.ofNat (87 + n)

/-- Per-character json string escaping as performed by `serde_json`. -/
def escapeChar (c : Char) : List Char :=
  if c = '"' then ['\\', '"']
  else if c = '\\' then ['\\', '\\']
  else if c = '\n' then ['\\', 'n']
  else if c = '\t' then ['\\', 't']
  else if c = '\r' then ['\\', 'r']
  else if c = Char.ofNat 8 then ['\\', 'b']
  else if c = Char.ofNat 12 then ['\\', 'f']
  else if c.toNat < 32 then
    ['\\', 'u', '0', '0', hexDigit (c.toNat / 16), hexDigit (c.toNat % 16)]
  else [c]

/-- Escape a string for embedding in json. -/
def jsonEscape (s : String) : String :=
  ⟨s.data.foldr (fun c acc => escapeChar c ++ acc) []⟩

/-- A quoted json string literal. -/
def jsonQuote (s : String) : String := "\"" ++ jsonEscape s ++ "\""

/-- `serde_json::to_string` of a `SerialConfiguration`. -/
def serializeConfig (c : SerialConfiguration) : String :=
  "\x7b\"device\":" ++ jsonQuote c.device ++ ",\"baud\":" ++ toString c.baud ++ "\x7d"

/-- Serialization of a `ClientMessageRequest` (internally tagged by `kind`). -/
def serializeRequest : ClientMessageRequest → String
  | .rawSerial v => "\x7b\"kind\":\"raw_serial\",\"value\":" ++ jsonQuote v ++ "\x7d"
  | .configuration c =>
    "\x7b\"kind\":\"configuration\",\"device\":" ++ jsonQuote c.device
      ++ ",\"baud\":" ++ toString c.baud ++ "\x7d"
  | .closeSerial => "\x7b\"kind\":\"close_serial\"\x7d"
  | .retrySerial => "\x7b\"kind\":\"retry_serial\"\x7d"

/-- Serialization of a `ClientHistoryEntry` (internally tagged by
`history_kind`; the `SentCommand` variant flattens the `ClientMessage`). -/
def serializeHistoryEntry : ClientHistoryEntry → String
  | .sentCommand m =>
    "\x7b\"history_kind\":\"sent_command\",\"tick\":" ++ toString m.tick
      ++ ",\"request\":" ++ serializeRequest m.request ++ "\x7d"
  | .receivedData content =>
    "\x7b\"history_kind\":\"received_data\",\"content\":" ++ jsonQuote content ++ "\x7d"

/-- `Option<SerialConfiguration>` serialization. -/
def serializeOptConfig : Option SerialConfiguration → String
  | none => "null"
  | some c => serializeConfig c

/-- `serde_json::to_string(&ResponseKinds::State(client))`: the tag `kind`
first, then the `DerivedClientState` fields in declaration order. -/
def serializeState (c : DerivedClientState) : String :=
  "\x7b\"kind\":\"state\",\"tick\":" ++ toString c.tick
    ++ ",\"history\":[" ++ String.intercalate "," (c.history.map serializeHistoryEntry)
    ++ "],\"serial_available\":" ++ (if c.serial_available then "true" else "false")
    ++ ",\"last_config\":" ++ serializeOptConfig c.last_config ++ "\x7d"

/-- `serde_json::to_string(&ResponseKinds::Response(ClientResponse {..}))`. -/
def serializeResponse (tick : Nat) (status : String) : String :=
  "\x7b\"kind\":\"response\",\"tick\":" ++ toString tick
    ++ ",\"status\":" ++ jsonQuote status ++ "\x7d"

/-! ### `HashMap<String, DerivedClientState>` operations -/

/-- `HashMap::get` on the client map. -/
def lookupClient (clients : List (String × DerivedClientState)) (id : String) :
    Option DerivedClientState :=
  (clients.find? (fun p => p.1 = id)).map (·.2)

/-- `HashMap::get_mut` followed by a mutation of the entry. -/
def updateClient (clients : List (String × DerivedClientState)) (id : String)
    (f : DerivedClientState → DerivedClientState) : List (String × DerivedClientState) :=
  clients.map (fun p => if p.1 = id then (p.1, f p.2) else p)

/-- `HashMap::insert` (replacing an existing entry). -/
def insertClient (clients : List (String × DerivedClientState)) (id : String)
    (v : DerivedClientState) : List (String × DerivedClientState) :=
  if clients.any (fun p => p.1 = id) then
    clients.map (fun p => if p.1 = id then (id, v) else p)
  else clients ++ [(id, v)]

/-- `HashMap::remove`. -/
def removeClient (clients : List (String × DerivedClientState)) (id : String) :
    List (String × DerivedClientState) :=
  clients.filter (fun p => p.1 ≠ id)

/-! ### `Application::update` -/

/-- `Application::add_statuses`: refresh each client's `serial_available`, then
append one `SendState` per connected client. -/
def Application.add_statuses (app : Application) (cmds : List Command) :
    Application × List Command :=
  let avail := app.serial.available
  let updated := app.connected_clients.map (fun p => (p.1, { p.2 with serial_available := avail }))
  ({ app with connected_clients := updated },
   cmds ++ updated.map (fun p => Command.http (.sendState p.1 (serializeState p.2))))

/-- rust `str::lines`: split on `\n`, drop a final empty segment, strip a
trailing `\r` from each line. -/
def rustLines (s : String) : List String :=
  if s = "" then []
  else
    let parts := s.splitOn "\n"
    let parts := if parts.getLast? = some "" then parts.dropLast else parts
    parts.map (fun l => if l.endsWith "\r" then l.dropRight 1 else l)

/-- The `Message::Http(Message::ClientData(..))` arm of `Application::update`. -/
def Application.updateClientData (app : Application) (id : String) (data : String) :
    Application × Option (List Command) :=
  match lookupClient app.connected_clients id with
  | none => (app, none)
  | some _ =>
    match parseClientMessage data with
    | none =>
      (app, some [Command.http (.sendState id (serializeResponse 0 "failed"))])
    | some parsed =>
      let newTick := parsed.tick
      -- `connected_client.tick = new_tick`
      let app1 := { app with
        connected_clients := updateClient app.connected_clients id (fun c => { c with tick := newTick }) }
      let (app2, cmds0, update_configs) : Application × List Command × Bool :=
        match parsed.request with
        | .configuration cfg =>
          ({ app1 with serial := { connection := .pendingAttempt, last_config := some cfg } },
           [Command.serial (.configure cfg)], true)
        | .retrySerial => (app1, [Command.serial (.control true)], false)
        | .closeSerial => (app1, [Command.serial (.control false)], false)
        | .rawSerial v =>
          ({ app1 with
             connected_clients := updateClient app1.connected_clients id
               (fun c => { c with history := c.history ++ [.sentCommand parsed] }) },
           [Command.serial (.raw v)], false)
      let cmds1 := cmds0 ++ [Command.http (.sendState id (serializeResponse newTick "ok"))]
      let app3 :=
        if update_configs then
          { app2 with connected_clients :=
              app2.connected_clients.map (fun p => (p.1, { p.2 with last_config := app2.serial.last_config })) }
        else app2
      let (app4, cmds2) := app3.add_statuses cmds1
      (app4, some cmds2)

/-- `Application::update` (the pure Elm-style transition function); `now` is
the ambient `Instant::now()`. -/
def Application.update (now : Nat) (app : Application) (msg : Message) :
    Application × Option (List Command) :=
  match msg with
  | .disconnectedSerial =>
    let app1 := { app with serial := { app.serial with connection := .disconnected } }
    if app1.connected_clients.isEmpty then (app1, none)
    else
      let (app2, cmds) := app1.add_statuses []
      (app2, some cmds)
  | .connectedSerial =>
    let app1 := { app with serial := { app.serial with connection := .idle none } }
    if app1.connected_clients.isEmpty then (app1, none)
    else
      let (app2, cmds) := app1.add_statuses []
      (app2, some cmds)
  | .http (.fileUpload file_contents) =>
    if !app.serial.available then (app, none)
    else ({ app with serial := { app.serial with connection := .sendingFile file_contents } }, none)
  | .http (.clientDisconnected id) =>
    ({ app with connected_clients := removeClient app.connected_clients id }, none)
  | .http (.clientData id data) => app.updateClientData id data
  | .http (.clientConnected id) =>
    let connected_client : DerivedClientState :=
      { DerivedClientState.default with
        serial_available := app.serial.available
        last_config := app.serial.last_config }
    ({ app with connected_clients := insertClient app.connected_clients id connected_client }, none)
  | .serial data =>
    if app.connected_clients.isEmpty then (app, none)
    else
      let updated := app.connected_clients.map
        (fun p => (p.1, { p.2 with history := p.2.history ++ [.receivedData data] }))
      let cmds := updated.map (fun p => Command.http (.sendState p.1 (serializeState p.2)))
      ({ app with connected_clients := updated }, some cmds)
  | .broadcast =>
    match app.last_broadcast with
    | none => ({ app with last_broadcast := some now }, none)
    | some last_broadcast =>
      if now - last_broadcast < 2 then (app, none)
      else
        let app1 := { app with last_broadcast := some now }
        if app1.connected_clients.isEmpty then (app1, none)
        else
          let (app2, cmds) := app1.add_statuses []
          (app2, some cmds)
  | .tick =>
    let (conn1, cmdsA) :=
      match app.serial.connection with
      | .sendingFile contents =>
        let ls := rustLines contents
        match ls.head? with
        | some next_line =>
          (SerialConnectionState.sendingFile (String.join ((ls.drop 1).map (fun l => l ++ "\n"))),
           [Command.serial (.raw next_line)])
        | none => (SerialConnectionState.idle none, [])
      | other => (other, [])
    let (conn2, cmdsB) :=
      match conn1 with
      | .idle lastPing =>
        let is_old := match lastPing with
          | none => true
          | some ping => now - ping > 3
        if is_old then (SerialConnectionState.idle (some now), cmdsA ++ [Command.serial .status])
        else (SerialConnectionState.idle lastPing, cmdsA)
      | other => (other, cmdsA)
    ({ app with serial := { app.serial with connection := conn2 } }, some cmdsB)

/-! ### `eff.rs`: command routing of the `EffectRuntime`

`EffectRuntime::publish_cmds` iterates the registered channels in order; for
each command it sends to the first channel whose filter reports `sendable` and
then breaks out of the channel scan.  Channel sends are modelled as
succeeding; a failed send aborts the whole loop in the source, which can only
remove deliveries.  `sendLoop` returns the indices of the managers the inner
`for` loop sends one command to (the `break` ends the scan after a send). -/

/-- The inner channel scan of `EffectRuntime::publish_cmds` for one command:
the list of (registration-order) manager indices receiving the command. -/
def sendLoop {C : Type} (filters : List (C → Bool)) (cmd : C) : List Nat :=
  match filters with
  | [] => []
  | f :: rest => if f cmd then [0] else (sendLoop rest cmd).map (· + 1)

/-- `EffectRuntime::publish_cmds`: all deliveries (manager index, command)
performed for a command list, in order. -/
def publish_cmds {C : Type} (filters : List (C → Bool)) : List C → List (Nat × C)
  | [] => []
  | c :: rest => (sendLoop filters c).map (fun i => (i, c)) ++ publish_cmds filters rest

/-- `app::SerialFilter::sendable`. -/
def serialFilter : Command → Bool
  | .serial _ => true
  | _ => false

/-- `app::TickFilter::sendable`. -/
def tickFilter : Command → Bool := fun _ => false

/-- `app::HttpFilter::sendable`. -/
def httpFilter : Command → Bool
  | .http _ => true
  | _ => false

/-- The filters in the registration order of `app::run` (serial ticks,
broadcast ticks, serial effects, http effects). -/
def registeredFilters : List (Command → Bool) :=
  [tickFilter, tickFilter, serialFilter, httpFilter]

/-! ### `app/grbl/mod.rs`: grbl response parsing

Coordinates are modelled as exact rationals: every literal the claims touch
(`1.000`, `2.000`, `3.000`) is exactly representable in `f32`, and the claims
only concern parse success and these exact values.  The `inf`/`NaN` spellings
accepted by rust's float grammar have no rational counterpart and are outside
the numeric fields the claims exercise, so the model rejects them. -/

/-- `grbl::MachineState`. -/
inductive MachineState where
  | run
  | idle
  | home
  | alarm
deriving DecidableEq, Repr

/-- `MachineState::from_str`. -/
def MachineState.from_str (s : List Char) : Option MachineState :=
  if s = "Idle".data then some .idle
  else if s = "Run".data then some .run
  else if s = "Home".data then some .home
  else if s = "Alarm".data then some .alarm
  else none

/-- `grbl::MachinePosition`. -/
structure MachinePosition where
  x : ℚ
  y : ℚ
  z : ℚ
deriving DecidableEq, Repr

/-- `grbl::Response`. -/
inductive Response where
  | ok
  | status (state : MachineState) (pos : MachinePosition)
deriving DecidableEq, Repr

/-- rust `str::split(sep)` (always at least one segment). -/
def splitOnChar (sep : Char) : List Char → List (List Char)
  | [] => [[]]
  | c :: rest =>
    match splitOnChar sep rest with
    | [] => [[]]
    | g :: gs => if c = sep then [] :: g :: gs else (c :: g) :: gs

/-- `str::trim_start_matches("MPos:")`: strips the pattern repeatedly. -/
def trimMPos : List Char → List Char
  | 'M' :: 'P' :: 'o' :: 's' :: ':' :: rest => trimMPos rest
  | s => s

/-- `f32::from_str` on the decimal grammar `[sign] digits [. digits] [exp]`
(also `[sign] . digits [exp]`), with the value kept as an exact rational. -/
def parseF32 (cs : List Char) : Option ℚ :=
  let (neg, cs1) : Bool × List Char :=
    match cs with
    | '+' :: r => (false, r)
    | '-' :: r => (true, r)
    | _ => (false, cs)
  let intDigits := cs1.takeWhile isDigitChar
  let rest1 := cs1.dropWhile isDigitChar
  let (fracDigits, rest2) : List Char × List Char :=
    match rest1 with
    | '.' :: r => (r.takeWhile isDigitChar, r.dropWhile isDigitChar)
    | _ => ([], rest1)
  if intDigits.isEmpty && fracDigits.isEmpty then none
  else
    let den : Nat := 10 ^ fracDigits.length
    let num : Int := (digitsToNat intDigits * den + digitsToNat fracDigits : Nat)
    let signedNum : Int := if neg then -num else num
    match rest2 with
    | [] => some (mkRat signedNum den)
    | e :: r3 =>
      if e = 'e' ∨ e = 'E' then
        let (epos, r4) : Bool × List Char :=
          match r3 with
          | '+' :: rr => (true, rr)
          | '-' :: rr => (false, rr)
          | _ => (true, r3)
        let eDigits := r4.takeWhile isDigitChar
        if eDigits.isEmpty || !(r4.dropWhile isDigitChar).isEmpty then none
        else
          let ev := digitsToNat eDigits
          some (if epos then mkRat (signedNum * ((10 : Nat) ^ ev : Nat)) den
                else mkRat signedNum (den * 10 ^ ev))
      else none

/-- `grbl::Response::from_str` (working on the line's characters). -/
def Response.from_str (input : List Char) : Option Response :=
  if input = "ok".data then some .ok
  else
    match input with
    | '<' :: rest =>
      -- `status.chars().skip(1).take_while(|c| *c != ',')`
      let stateTok := rest.takeWhile (fun c => c ≠ ',')
      match MachineState.from_str stateTok with
      | none => none
      | some state =>
        -- `status.split(',').skip(1)` matched against `[header, raw_y, raw_z, _, _, _]`
        match (splitOnChar ',' input).drop 1 with
        | [header, rawY, rawZ, _, _, _] =>
          if "MPos:".data.isPrefixOf header then
            match parseF32 (trimMPos header), parseF32 rawY, parseF32 rawZ with
            | some x, some y, some z => some (.status state ⟨x, y, z⟩)
            | _, _, _ => none
          else none
        | _ => none
    | _ => none

/-! ### `app::SerialParser::parse` (`app/mod.rs`)

The source lossy-decodes the byte buffer (`String::from_utf8_lossy`), looks
for `'\n'` by byte index in the *decoded* string, and returns
`(Message::Serial(first `boundary` chars), boundary + 1)`.  Bytes are `Nat`s;
decoded characters are unicode scalar values (`Nat`s), with rust's
maximal-subpart replacement policy (one U+FFFD per maximal valid prefix of an
invalid sequence). -/

/-- A UTF-8 continuation byte. -/
def isCont (b : Nat) : Bool := 0x80 ≤ b && b ≤ 0xBF

/-- Lower bound of the first continuation byte for a given lead byte. -/
def contLo (b : Nat) : Nat :=
  if b = 0xE0 then 0xA0 else if b = 0xF0 then 0x90 else 0x80

/-- Upper bound of the first continuation byte for a given lead byte. -/
def contHi (b : Nat) : Nat :=
  if b = 0xED then 0x9F else if b = 0xF4 then 0x8F else 0xBF

/-- First continuation byte check for lead byte `b`. -/
def cont1ok (b b2 : Nat) : Bool := contLo b ≤ b2 && b2 ≤ contHi b

/-- Sequence length announced by a lead byte (0 for an invalid lead). -/
def leadLen (b : Nat) : Nat :=
  if b ≤ 0x7F then 1
  else if 0xC2 ≤ b && b ≤ 0xDF then 2
  else if 0xE0 ≤ b && b ≤ 0xEF then 3
  else if 0xF0 ≤ b && b ≤ 0xF4 then 4
  else 0

/-- `String::from_utf8_lossy(..).chars()`: decode to unicode scalar values,
substituting U+FFFD per maximal subpart of an ill-formed sequence.  The fuel
argument (one unit per decoded item) only serves structural recursion; the
wrapper `utf8LossyChars` supplies `bs.length`, which is always sufficient
since every step consumes at least one byte. -/
def utf8LossyCharsF : Nat → List Nat → List Nat
  | 0, _ => []
  | _ + 1, [] => []
  | fuel + 1, b :: rest =>
    match leadLen b with
    | 1 => b :: utf8LossyCharsF fuel rest
    | 2 =>
      (match rest with
       | b2 :: r2 =>
         if cont1ok b b2 then ((b - 0xC0) * 0x40 + (b2 - 0x80)) :: utf8LossyCharsF fuel r2
         else 0xFFFD :: utf8LossyCharsF fuel rest
       | [] => [0xFFFD])
    | 3 =>
      (match rest with
       | b2 :: r2 =>
         if cont1ok b b2 then
           match r2 with
           | b3 :: r3 =>
             if isCont b3 then
               ((b - 0xE0) * 0x1000 + (b2 - 0x80) * 0x40 + (b3 - 0x80)) :: utf8LossyCharsF fuel r3
             else 0xFFFD :: utf8LossyCharsF fuel r2
           | [] => [0xFFFD]
         else 0xFFFD :: utf8LossyCharsF fuel rest
       | [] => [0xFFFD])
    | 4 =>
      (match rest with
       | b2 :: r2 =>
         if cont1ok b b2 then
           match r2 with
           | b3 :: r3 =>
             if isCont b3 then
               match r3 with
               | b4 :: r4 =>
                 if isCont b4 then
                   ((b - 0xF0) * 0x40000 + (b2 - 0x80) * 0x1000
                     + (b3 - 0x80) * 0x40 + (b4 - 0x80)) :: utf8LossyCharsF fuel r4
                 else 0xFFFD :: utf8LossyCharsF fuel r3
               | [] => [0xFFFD]
             else 0xFFFD :: utf8LossyCharsF fuel r2
           | [] => [0xFFFD]
         else 0xFFFD :: utf8LossyCharsF fuel rest
       | [] => [0xFFFD])
    | _ => 0xFFFD :: utf8LossyCharsF fuel rest

/-- The lossy decoding at its canonical fuel. -/
def utf8LossyChars (bs : List Nat) : List Nat := utf8LossyCharsF bs.length bs

/-- UTF-8 byte length of a scalar value. -/
def utf8CharLen (v : Nat) : Nat :=
  if v < 0x80 then 1 else if v < 0x800 then 2 else if v < 0x10000 then 3 else 4

/-- `str::find('\n')`: byte index of the first newline in the decoded
string. -/
def findNewlineByteIdx : List Nat → Option Nat
  | [] => none
  | v :: rest =>
    if v = 10 then some 0 else (findNewlineByteIdx rest).map (utf8CharLen v + ·)

/-- `str::is_char_boundary` on the decoded string. -/
def isCharBoundary : List Nat → Nat → Bool
  | _, 0 => true
  | [], _ + 1 => false
  | v :: rest, i + 1 =>
    if i + 1 < utf8CharLen v then false else isCharBoundary rest (i + 1 - utf8CharLen v)

/-- Decoded scalar values back to a lean `String` (scalar values produced by
`utf8LossyChars` are always valid). -/
def scalarsToString (vs : List Nat) : String := String.mk (vs.map Char.ofNat)

/-- `app::SerialParser::parse` over a byte buffer. -/
def SerialParser.parse (bytes : List Nat) : Option (Message × Nat) :=
  let appearance := utf8LossyChars bytes
  match findNewlineByteIdx appearance with
  | none => none
  | some boundary =>
    if isCharBoundary appearance boundary then
      some (Message.serial (scalarsToString (appearance.take boundary)), boundary + 1)
    else none

/-- Structural well-formedness of a UTF-8 byte sequence (fuel-indexed for
structural recursion; `validUtf8` supplies the always-sufficient
`bs.length`). -/
def validUtf8F : Nat → List Nat → Bool
  | 0, [] => true
  | 0, _ :: _ => false
  | _ + 1, [] => true
  | fuel + 1, b :: rest =>
    match leadLen b with
    | 1 => validUtf8F fuel rest
    | 2 =>
      (match rest with
       | b2 :: r2 => cont1ok b b2 && validUtf8F fuel r2
       | [] => false)
    | 3 =>
      (match rest with
       | b2 :: b3 :: r3 => cont1ok b b2 && isCont b3 && validUtf8F fuel r3
       | _ => false)
    | 4 =>
      (match rest with
       | b2 :: b3 :: b4 :: r4 => cont1ok b b2 && isCont b3 && isCont b4 && validUtf8F fuel r4
       | _ => false)
    | _ => false

/-- Well-formedness at the canonical fuel. -/
def validUtf8 (bs : List Nat) : Bool := validUtf8F bs.length bs

/-- Byte index of the first `0x0A` in a byte buffer; the length of the first
newline-terminated frame (newline included) is this plus one. -/
def firstNlIdx : List Nat → Option Nat
  | [] => none
  | b :: rest => if b = 10 then some 0 else (firstNlIdx rest).map (· + 1)

/-- Repeatedly invoke the parser, dropping the consumed prefix each time, as
the serial manager's loop does over successive iterations (fuel-bounded). -/
def drainFrames : Nat → List Nat → List Message × List Nat
  | 0, bs => ([], bs)
  | fuel + 1, bs =>
    match SerialParser.parse bs with
    | none => ([], bs)
    | some mn =>
      (mn.1 :: (drainFrames fuel (bs.drop mn.2)).1, (drainFrames fuel (bs.drop mn.2)).2)

/-! ### `effects/serial.rs`: the serial effect manager loop

One iteration of `Serial::run` is modelled as a step function over the loop's
state; the per-iteration environment supplies the outcome of the fallible
operations (`try_recv`, `serialport::open`, `Read::read`, `write!`).  Sends on
the outbound message channel are modelled as succeeding (their failure breaks
the loop in the source). -/

/-- `effects::serial::SerialCommand<D>` with `D` the application's
`SerialCommand` (as wired by `app::SerialMap`). -/
inductive EffSerialCommand where
  | control (b : Bool)
  | configure (config : SerialConfiguration)
  | data (d : AppSerialCommand)
deriving DecidableEq, Repr

/-- `Display for app::SerialCommand` (`writeln!` appends a newline; the other
variants write nothing). -/
def serialCommandDisplay : AppSerialCommand → String
  | .raw inner => inner ++ "\n"
  | .status => "?\n"
  | .configure _ => ""
  | .control _ => ""

/-- `app::SerialMap::translate`. -/
def SerialMap.translate : Command → Option EffSerialCommand
  | .serial inner =>
    some (match inner with
      | .control b => .control b
      | .configure cfg => .configure cfg
      | .raw d => .data (.raw d)
      | .status => .data .status)
  | _ => none

/-- The mutable state of one `Serial::run` loop (`port` tracks handle
presence; the handle itself is opaque I/O). -/
structure SerialRunState where
  isConnected : Bool
  manualDisconnect : Bool
  config : Option SerialConfiguration
  port : Bool
  buffer : List Nat
deriving DecidableEq, Repr

/-- Loop state at entry of `Serial::run` for a manager built by
`Serial::new(config, parser)`. -/
def SerialRunState.init (config : Option SerialConfiguration) : SerialRunState :=
  { isConnected := false, manualDisconnect := false, config := config,
    port := false, buffer := [] }

/-- Outcome of the non-blocking `commands.try_recv()`. -/
inductive CmdRecv where
  | closed
  | empty
  | recv (c : Command)
deriving DecidableEq, Repr

/-- Outcome of the port read. -/
inductive ReadOutcome where
  | timeout
  | failure
  | data (bytes : List Nat)
deriving DecidableEq, Repr

/-- Environment of one loop iteration: the results of its I/O operations. -/
structure SerialEnv where
  recv : CmdRecv
  openOk : Bool
  read : ReadOutcome
  writeOk : Bool
deriving DecidableEq, Repr

/-- Step 5 of one `Serial::run` iteration: parse the accumulated buffer at
most once, appending a decoded message and consuming its bytes. -/
def parseOnce (msgs1 : List Message) (buf : List Nat) : List Message × List Nat :=
  if buf.isEmpty then (msgs1, buf)
  else
    match SerialParser.parse buf with
    | some (m, n) => (msgs1 ++ [m], buf.drop n)
    | none => (msgs1, buf)

/-- Steps 2-6 of one `Serial::run` iteration (reconcile the connection, read,
parse, flush), after step 1 has produced the drained write `sendable` and the
updated `manual_disconnect` / `config` / `port` values. -/
def serialIterate (isConnected : Bool) (buffer : List Nat) (env : SerialEnv)
    (sendable : Option String) (manualD : Bool) (cfg : Option SerialConfiguration)
    (port0 : Bool) : SerialRunState × List Message × List String :=
  -- step 2: reconcile, `match (manual_disconnect, self.config.as_ref(), port.take())`
  let reconciled : Bool × Bool × List Message :=
    if manualD then (false, isConnected, [])
    else
      match cfg, port0 with
      | some _, false =>
        if env.openOk then
          if isConnected then (true, true, [])
          else (true, true, [Message.connectedSerial])
        else (false, isConnected, [])
      | _, true => (true, isConnected, [])
      | none, false => (false, isConnected, [])
  match reconciled with
  | (port1, isConn1, msgs1) =>
    if !port1 then
      -- step 3: disconnected path (emit edge message, drop pending write);
      -- `is_connected` is false afterwards whether or not the edge fired
      ({ isConnected := if isConn1 then false else isConn1, manualDisconnect := manualD,
         config := cfg, port := false, buffer := buffer },
       (if isConn1 then msgs1 ++ [Message.disconnectedSerial] else msgs1), [])
    else
      match env.read with
      | .failure =>
        ({ isConnected := isConn1, manualDisconnect := manualD, config := cfg,
           port := false, buffer := buffer }, msgs1, [])
      | read =>
        -- step 4: append read bytes (timeout is the no-data case)
        let buf :=
          match read with
          | .data bs => buffer ++ bs
          | _ => buffer
        -- step 5: parse at most once
        let pr := parseOnce msgs1 buf
        -- step 6: flush the captured write (a failure drops the handle)
        let port2 : Bool :=
          match sendable with
          | some _ => env.writeOk
          | none => true
        let writes : List String :=
          match sendable with
          | some payload => [payload]
          | none => []
        ({ isConnected := isConn1, manualDisconnect := manualD, config := cfg,
           port := port2, buffer := pr.2 }, pr.1, writes)

/-- One iteration of the `Serial::run` loop.  Returns `none` when the loop
breaks with an error (closed command channel); otherwise the new state, the
messages sent to the application, and the payloads written to the port.
Step 1 (drain one pending command through `glue.translate`) selects the
arguments of `serialIterate`. -/
def serialStep (st : SerialRunState) (env : SerialEnv) :
    Option (SerialRunState × List Message × List String) :=
  match env.recv with
  | .closed => none
  | .empty => some (serialIterate st.isConnected st.buffer env none st.manualDisconnect st.config st.port)
  | .recv c =>
    match SerialMap.translate c with
    | some (.control true) =>
      some (serialIterate st.isConnected st.buffer env none false st.config st.port)
    | some (.control false) =>
      some (serialIterate st.isConnected st.buffer env none true st.config false)
    | some (.configure cf) =>
      some (serialIterate st.isConnected st.buffer env none st.manualDisconnect (some cf) st.port)
    | some (.data d) =>
      some (serialIterate st.isConnected st.buffer env (some (serialCommandDisplay d))
        st.manualDisconnect st.config st.port)
    | none =>
      some (serialIterate st.isConnected st.buffer env none st.manualDisconnect st.config st.port)

/-- Run the loop over a list of iteration environments, collecting all
messages sent to the application (a `none` step ends the run). -/
def serialRun (st : SerialRunState) : List SerialEnv → SerialRunState × List Message
  | [] => (st, [])
  | e :: rest =>
    match serialStep st e with
    | none => (st, [])
    | some sms => ((serialRun sms.1 rest).1, sms.2.1 ++ (serialRun sms.1 rest).2)

/-- The `is_connected` value after each surviving iteration. -/
def connTrace (st : SerialRunState) : List SerialEnv → List Bool
  | [] => []
  | e :: rest =>
    match serialStep st e with
    | none => []
    | some sms => sms.1.isConnected :: connTrace sms.1 rest

/-- Number of `false → true` transitions along a boolean trace. -/
def risingEdges (prev : Bool) : List Bool → Nat
  | [] => 0
  | b :: rest => (if !prev && b then 1 else 0) + risingEdges b rest

/-- Number of `true → false` transitions along a boolean trace. -/
def fallingEdges (prev : Bool) : List Bool → Nat
  | [] => 0
  | b :: rest => (if prev && !b then 1 else 0) + fallingEdges b rest

/-! ### `detach` for the three effect managers

Channel endpoints are abstract values; a manager holds, as in the source, its
`(Receiver<C>, Option<Sender<C>>)` command pair and `(Sender<M>,
Option<Receiver<M>>)` message pair, and `detach` `take()`s both options. -/

/-- `effects::serial::Serial` channel fields. -/
structure EffSerial (CR CS MR MS : Type) where
  commands : CR × Option CS
  messages : MS × Option MR

/-- `Serial::new` channel wiring. -/
def EffSerial.new {CR CS MR MS : Type} (cr : CR) (cs : CS) (mr : MR) (ms : MS) :
    EffSerial CR CS MR MS :=
  { commands := (cr, some cs), messages := (ms, some mr) }

/-- `Serial::detach` (`&mut self`: returns the result and the new state). -/
def EffSerial.detach {CR CS MR MS : Type} (s : EffSerial CR CS MR MS) :
    Except String (MR × CS) × EffSerial CR CS MR MS :=
  match s.commands.2 with
  | none => (.error "already taken", s)
  | some cmdIn =>
    let s1 : EffSerial CR CS MR MS := { s with commands := (s.commands.1, none) }
    match s1.messages.2 with
    | none => (.error "already taken", s1)
    | some msgOut => (.ok (msgOut, cmdIn), { s1 with messages := (s1.messages.1, none) })

/-- `effects::ticker::Ticker` channel fields. -/
structure EffTicker (CR CS MR MS : Type) where
  commands : CR × Option CS
  messages : MS × Option MR

/-- `Ticker::new` channel wiring. -/
def EffTicker.new {CR CS MR MS : Type} (cr : CR) (cs : CS) (mr : MR) (ms : MS) :
    EffTicker CR CS MR MS :=
  { commands := (cr, some cs), messages := (ms, some mr) }

/-- `Ticker::detach`. -/
def EffTicker.detach {CR CS MR MS : Type} (s : EffTicker CR CS MR MS) :
    Except String (MR × CS) × EffTicker CR CS MR MS :=
  match s.commands.2 with
  | none => (.error "already taken", s)
  | some cmdIn =>
    let s1 : EffTicker CR CS MR MS := { s with commands := (s.commands.1, none) }
    match s1.messages.2 with
    | none => (.error "already taken", s1)
    | some msgOut => (.ok (msgOut, cmdIn), { s1 with messages := (s1.messages.1, none) })

/-- `effects::http::Http` channel fields. -/
structure EffHttp (CR CS MR MS : Type) where
  commands : CR × Option CS
  messages : MS × Option MR

/-- `Http::new` channel wiring. -/
def EffHttp.new {CR CS MR MS : Type} (cr : CR) (cs : CS) (mr : MR) (ms : MS) :
    EffHttp CR CS MR MS :=
  { commands := (cr, some cs), messages := (ms, some mr) }

/-- `Http::detach`. -/
def EffHttp.detach {CR CS MR MS : Type} (s : EffHttp CR CS MR MS) :
    Except String (MR × CS) × EffHttp CR CS MR MS :=
  match s.commands.2 with
  | none => (.error "already taken", s)
  | some cmdIn =>
    let s1 : EffHttp CR CS MR MS := { s with commands := (s.commands.1, none) }
    match s1.messages.2 with
    | none => (.error "already taken", s1)
    | some msgOut => (.ok (msgOut, cmdIn), { s1 with messages := (s1.messages.1, none) })

/-! ### `effects/http/mod.rs`: the websocket client registry

The `proxy_task` owns `clients: HashMap<String, Sender<Command>>`.  Each loop
iteration handles either a registration `(id, sender)` or a `SendState`
command; a command is forwarded to the registered sender if present (a failed
send is only logged) and dropped otherwise.  Senders are abstract values; the
`sendOk` flag of a command event is the outcome the sender's `send` would
have. -/

/-- One event handled by the `proxy_task` loop. -/
inductive ProxyEvent (σ : Type) where
  | registration (id : String) (sender : σ)
  | command (c : HttpCommand) (sendOk : Bool)

/-- `HashMap::insert` on the registry. -/
def registryInsert {σ : Type} (clients : List (String × σ)) (id : String) (v : σ) :
    List (String × σ) :=
  if clients.any (fun p => p.1 = id) then
    clients.map (fun p => if p.1 = id then (id, v) else p)
  else clients ++ [(id, v)]

/-- One iteration of `proxy_task`: the new registry and the forwards attempted
to per-client senders. -/
def proxyStep {σ : Type} (clients : List (String × σ)) :
    ProxyEvent σ → List (String × σ) × List (String × HttpCommand)
  | .registration id sender => (registryInsert clients id sender, [])
  | .command c _sendOk =>
    match c with
    | .sendState id _ =>
      match clients.find? (fun p => p.1 = id) with
      | some _ => (clients, [(id, c)])
      | none => (clients, [])

/-- The registry reached after a sequence of `proxy_task` events. -/
def proxyRun {σ : Type} (clients : List (String × σ)) : List (ProxyEvent σ) → List (String × σ)
  | [] => clients
  | e :: rest => proxyRun (proxyStep clients e).1 rest

/-! ### Concrete fixtures used to instantiate the general theorems -/

/-- A connected client that has seen `serial_available = true`. -/
def clientEx : DerivedClientState :=
  { DerivedClientState.default with serial_available := true }

/-- An application state with one connected client and an available (idle)
serial connection. -/
def appEx : Application :=
  { last_broadcast := none,
    connected_clients := [("c1", clientEx)],
    serial := { connection := .idle none, last_config := none } }

/-- An application state with one connected client and a disconnected serial
connection. -/
def appExDisc : Application :=
  { last_broadcast := none,
    connected_clients := [("c1", clientEx)],
    serial := { connection := .disconnected, last_config := none } }

/-- An application state with no connected clients. -/
def appExEmpty : Application :=
  { last_broadcast := none,
    connected_clients := [],
    serial := { connection := .disconnected, last_config := none } }

/-- The flat client payload named by the spec's Scenario A. -/
def c2FlatPayload : String :=
  "\x7b\"tick\":5,\"kind\":\"raw_serial\",\"value\":\"G0 X1\"\x7d"

/-- The nested client payload actually accepted by `ClientMessage`. -/
def c2NestedPayload : String :=
  "\x7b\"tick\":5,\"request\":\x7b\"kind\":\"raw_serial\",\"value\":\"G0 X1\"\x7d\x7d"

/-- A grbl status line with state token, `MPos:`-prefixed coordinates, and
exactly three trailing comma-separated fields. -/
def statusLine (stateTok x y z t1 t2 t3 : List Char) : List Char :=
  '<' :: stateTok ++ ',' :: "MPos:".data ++ x ++ ',' :: y ++ ',' :: z
    ++ ',' :: t1 ++ ',' :: t2 ++ ',' :: t3

end Costanza

namespace Costanza

/-! ## Theorems -/

/-! ### C9: `ClientData` for an unregistered client id is silently discarded -/

/-- C9: for every client id absent from `connected_clients` and every payload,
`Application::update` on `ClientData(id, payload)` returns the state unchanged
and no commands. -/
theorem update_unknown_client_noop (now : Nat) (app : Application) (id : String)
    (payload : String) (h : lookupClient app.connected_clients id = none) :
    Application.update now app (Message.http (.clientData id payload)) = (app, none) := by
  simp [Application.update, Application.updateClientData, h]

/-- C9 witness: a well-formed payload from an unknown id is discarded. -/
theorem update_unknown_client_noop_witness :
    Application.update 0 appExEmpty (Message.http (.clientData "c9" c2NestedPayload))
      = (appExEmpty, none) :=
  update_unknown_client_noop 0 appExEmpty "c9" c2NestedPayload rfl

/-! ### C6: unparseable payloads get a `failed` acknowledgment -/

/-- C6: for every connected client and every payload that does not parse as a
`ClientMessage`, `update` returns the state unchanged and exactly one command,
an http `SendState` to that client whose json body has kind `response`,
status `failed` and tick 0. -/
theorem update_unparseable_failed_ack (now : Nat) (app : Application) (id : String)
    (payload : String) (client : DerivedClientState)
    (hc : lookupClient app.connected_clients id = some client)
    (hp : parseClientMessage payload = none) :
    Application.update now app (Message.http (.clientData id payload)) =
      (app, some [Command.http (.sendState id (serializeResponse 0 "failed"))])
    ∧ parseJson (serializeResponse 0 "failed") =
        some (.obj [("kind", .str "response"), ("tick", .num 0), ("status", .str "failed")]) := by
  refine ⟨?_, rfl⟩
  simp [Application.update, Application.updateClientData, hc, hp]

/-- C6 witness at a concrete state and payload. -/
theorem update_unparseable_failed_ack_witness :
    Application.update 0 appEx (Message.http (.clientData "c1" "not json")) =
      (appEx, some [Command.http (.sendState "c1" (serializeResponse 0 "failed"))])
    ∧ parseJson (serializeResponse 0 "failed") =
        some (.obj [("kind", .str "response"), ("tick", .num 0), ("status", .str "failed")]) :=
  update_unparseable_failed_ack 0 appEx "c1" "not json" clientEx rfl rfl

/-! ### C2: Scenario A and the client envelope shape

`ClientMessage` nests its variant under a `request` field (no serde
`flatten`), so the flat payload of Scenario A fails to parse and receives the
`failed`/tick-0 acknowledgment instead of the Serial command. -/

/-- C2 counterexample: on the flat Scenario A payload, `update` emits only the
`failed` acknowledgment — no `Serial::Raw` command and no `ok` response. -/
theorem update_flat_raw_serial_rejected :
    (Application.update 0 appEx (Message.http (.clientData "c1" c2FlatPayload))).2 =
      some [Command.http (.sendState "c1" (serializeResponse 0 "failed"))]
    ∧ Command.serial (.raw "G0 X1")
        ∉ [Command.http (.sendState "c1" (serializeResponse 0 "failed"))]
    ∧ Command.http (.sendState "c1" (serializeResponse 5 "ok"))
        ∉ [Command.http (.sendState "c1" (serializeResponse 0 "failed"))] := by
  refine ⟨rfl, by decide, by decide⟩

/-- C2 (amended): with the variant nested under `request`
(`{"tick":5,"request":{"kind":"raw_serial","value":"G0 X1"}}`), `update` for a
connected client while serial is available returns a command list containing
the Serial `Raw("G0 X1")` command and an http `SendState` to that client whose
json body has kind `response`, tick 5 and status `ok`. -/
theorem update_nested_raw_serial_ok (now : Nat) (app : Application) (id : String)
    (client : DerivedClientState) (lp : Option Nat)
    (hc : lookupClient app.connected_clients id = some client)
    (hs : app.serial.connection = .idle lp) :
    ∃ cmds, (Application.update now app (Message.http (.clientData id c2NestedPayload))).2 = some cmds
      ∧ Command.serial (.raw "G0 X1") ∈ cmds
      ∧ Command.http (.sendState id (serializeResponse 5 "ok")) ∈ cmds
      ∧ parseJson (serializeResponse 5 "ok") =
          some (.obj [("kind", .str "response"), ("tick", .num 5), ("status", .str "ok")]) := by
  have hp : parseClientMessage c2NestedPayload = some ⟨5, .rawSerial "G0 X1"⟩ := by rfl
  simp only [Application.update, Application.updateClientData, hc, hp, Application.add_statuses]
  refine ⟨_, rfl, ?_, ?_, rfl⟩
  · simp
  · simp

/-- C2 witness at a concrete single-client state. -/
theorem update_nested_raw_serial_ok_witness :
    ∃ cmds, (Application.update 0 appEx (Message.http (.clientData "c1" c2NestedPayload))).2 = some cmds
      ∧ Command.serial (.raw "G0 X1") ∈ cmds
      ∧ Command.http (.sendState "c1" (serializeResponse 5 "ok")) ∈ cmds
      ∧ parseJson (serializeResponse 5 "ok") =
          some (.obj [("kind", .str "response"), ("tick", .num 5), ("status", .str "ok")]) :=
  update_nested_raw_serial_ok 0 appEx "c1" clientEx none rfl rfl

/-! ### C1: first-match, exclusive command routing in `publish_cmds` -/

/-- The inner channel scan sends a command at most once. -/
theorem sendLoop_length_le {C : Type} (filters : List (C → Bool)) (c : C) :
    (sendLoop filters c).length ≤ 1 := by
  induction filters with
  | nil => simp [sendLoop]
  | cons f rest ih =>
    simp only [sendLoop]
    split
    · simp
    · simpa using ih

/-- The scan delivers nowhere exactly when no filter accepts. -/
theorem sendLoop_nil_iff {C : Type} (filters : List (C → Bool)) (c : C) :
    sendLoop filters c = [] ↔ ∀ f ∈ filters, f c = false := by
  induction filters with
  | nil => simp [sendLoop]
  | cons f rest ih =>
    simp only [sendLoop]
    split
    · rename_i hf
      simp [List.forall_mem_cons, hf]
    · rename_i hf
      simp only [Bool.not_eq_true] at hf
      simp [List.forall_mem_cons, hf, ih]

/-- When the scan delivers, it delivers to the first accepting filter in
registration order. -/
theorem sendLoop_singleton {C : Type} (filters : List (C → Bool)) (c : C) :
    ∀ i, sendLoop filters c = [i] →
      ∃ h : i < filters.length, (filters.get ⟨i, h⟩) c = true
        ∧ ∀ j (hj : j < filters.length), j < i → (filters.get ⟨j, hj⟩) c = false := by
  induction filters with
  | nil => intro i h; simp [sendLoop] at h
  | cons f rest ih =>
    intro i h
    simp only [sendLoop] at h
    split at h
    · rename_i hf
      obtain rfl : (0 : Nat) = i := by simpa using h
      exact ⟨by simp, by simpa using hf, fun j hj hj0 => absurd hj0 (by omega)⟩
    · rename_i hf
      simp only [Bool.not_eq_true] at hf
      cases hsl : sendLoop rest c with
      | nil => rw [hsl] at h; simp at h
      | cons a tl =>
        rw [hsl] at h
        simp only [List.map_cons, List.cons.injEq] at h
        obtain ⟨rfl, htl⟩ := h
        have htl' : tl = [] := by
          cases tl with
          | nil => rfl
          | cons b tb => simp at htl
        subst htl'
        obtain ⟨ha, hacc, hbefore⟩ := ih a hsl
        refine ⟨by simpa using Nat.succ_lt_succ ha, by simpa using hacc, ?_⟩
        intro j hj hj0
        cases j with
        | zero => simpa using hf
        | succ j0 =>
          have hj0' : j0 < rest.length := by simpa using hj
          have : j0 < a := by omega
          simpa using hbefore j0 hj0' this

/-- C1: `EffectRuntime::publish_cmds` delivers each command to exactly zero or
one manager: the scan visits filters in registration order, sends to the
first accepting filter and stops there; a command accepted by no filter is
delivered to no manager.  `publish_cmds` performs exactly this per-command
scan over the command list. -/
theorem publish_cmds_first_match {C : Type} (filters : List (C → Bool)) (cmds : List C)
    (c : C) :
    (sendLoop filters c).length ≤ 1
    ∧ (sendLoop filters c = [] ↔ ∀ f ∈ filters, f c = false)
    ∧ (∀ i, sendLoop filters c = [i] →
        ∃ h : i < filters.length, (filters.get ⟨i, h⟩) c = true
          ∧ ∀ j (hj : j < filters.length), j < i → (filters.get ⟨j, hj⟩) c = false)
    ∧ publish_cmds filters cmds
        = cmds.flatMap (fun d => (sendLoop filters d).map (fun i => (i, d))) := by
  refine ⟨sendLoop_length_le filters c, sendLoop_nil_iff filters c,
    sendLoop_singleton filters c, ?_⟩
  induction cmds with
  | nil => simp [publish_cmds]
  | cons d rest ih => simp [publish_cmds, ih]

/-- C1 witness over the registration order of `app::run`: a Serial command is
routed to the serial manager (index 2) and rejected by both earlier tick
filters. -/
theorem publish_cmds_first_match_witness :
    ∃ h : 2 < registeredFilters.length,
      (registeredFilters.get ⟨2, h⟩) (Command.serial .status) = true
      ∧ ∀ j (hj : j < registeredFilters.length), j < 2 →
          (registeredFilters.get ⟨j, hj⟩) (Command.serial .status) = false :=
  (publish_cmds_first_match registeredFilters [Command.serial .status]
    (Command.serial .status)).2.2.1 2 rfl

/-! ### C5: the websocket client registry is insert-only

The `proxy_task` in `effects/http/mod.rs` only ever inserts into `clients`;
no branch of the loop removes an entry — neither a client disconnect (which
produces no registry event at all) nor a failed send (which is logged and
dropped). -/

/-- C5 counterexample: after registering client `"a"` and then routing a
`SendState` to it whose send fails (as it does once the client's connection
task has exited), the registry still contains the `"a"` entry. -/
theorem registry_send_failure_not_pruned :
    proxyRun ([] : List (String × Nat))
        [.registration "a" 7, .command (.sendState "a" "x") false] = [("a", 7)]
    ∧ "a" ∈ (proxyRun ([] : List (String × Nat))
        [.registration "a" 7, .command (.sendState "a" "x") false]).map Prod.fst := by
  exact ⟨rfl, by decide⟩

/-- Keys of the registry are preserved by `registryInsert`. -/
theorem registryInsert_keys {σ : Type} (clients : List (String × σ)) (rid : String)
    (v : σ) (id : String) (h : id ∈ clients.map Prod.fst) :
    id ∈ (registryInsert clients rid v).map Prod.fst := by
  unfold registryInsert
  split
  · have : (clients.map fun p => if p.1 = rid then (rid, v) else p).map Prod.fst
        = clients.map Prod.fst := by
      rw [List.map_map]
      refine List.map_congr_left ?_
      intro p _
      by_cases hp : p.1 = rid
      · simp [hp]
      · simp [hp]
    rw [this]
    exact h
  · rw [List.map_append]
    exact List.mem_append_left _ h

/-- C5 (amended): a registry entry is created on connect by the dispatcher
task that owns the registry, and is never removed: routing a command
(delivered, failed, or addressed to an absent id) leaves the registry
unchanged, and a `SendState` to an id with no entry forwards nothing. -/
theorem registry_entries_never_removed {σ : Type} (clients : List (String × σ))
    (ev : ProxyEvent σ) (id : String) (h : id ∈ clients.map Prod.fst) :
    id ∈ (proxyStep clients ev).1.map Prod.fst
    ∧ (∀ c ok, (proxyStep clients (.command c ok)).1 = clients)
    ∧ (∀ cid payload ok, (∀ p ∈ clients, p.1 ≠ cid) →
        (proxyStep clients (.command (.sendState cid payload) ok)).2 = []) := by
  refine ⟨?_, ?_, ?_⟩
  · cases ev with
    | registration rid s => exact registryInsert_keys clients rid s id h
    | command c ok =>
      cases c with
      | sendState cid payload =>
        simp only [proxyStep]
        cases hf : clients.find? (fun p => p.1 = cid) <;> simpa using h
  · intro c ok
    cases c with
    | sendState cid payload =>
      simp only [proxyStep]
      cases hf : clients.find? (fun p => p.1 = cid) <;> rfl
  · intro cid payload ok habs
    have hf : clients.find? (fun p => p.1 = cid) = none := by
      rw [List.find?_eq_none]
      intro p hp
      simpa using habs p hp
    simp [proxyStep, hf]

/-- C5 witness: an existing entry survives an arbitrary further event. -/
theorem registry_entries_never_removed_witness :
    "a" ∈ (proxyStep [("a", (7 : Nat))] (.command (.sendState "a" "x") false)).1.map Prod.fst :=
  (registry_entries_never_removed [("a", (7 : Nat))] (.command (.sendState "a" "x") false)
    "a" (by decide)).1

/-! ### C8: `detach` hands the channel endpoints out exactly once -/

/-- C8: for each effect manager (serial, ticker, http), the first `detach`
returns the message-receiver/command-sender endpoints, and any call after a
successful `detach` fails with the "already taken" error (leaving the state
unchanged, so every further call fails too). -/
theorem detach_exactly_once {CR CS MR MS : Type} (cr : CR) (cs : CS) (mr : MR) (ms : MS) :
    (EffSerial.detach (EffSerial.new cr cs mr ms)
        = (.ok (mr, cs), { commands := (cr, none), messages := (ms, none) })
      ∧ ∀ (s s2 : EffSerial CR CS MR MS) out, EffSerial.detach s = (.ok out, s2) →
          EffSerial.detach s2 = (.error "already taken", s2))
    ∧ (EffTicker.detach (EffTicker.new cr cs mr ms)
        = (.ok (mr, cs), { commands := (cr, none), messages := (ms, none) })
      ∧ ∀ (s s2 : EffTicker CR CS MR MS) out, EffTicker.detach s = (.ok out, s2) →
          EffTicker.detach s2 = (.error "already taken", s2))
    ∧ (EffHttp.detach (EffHttp.new cr cs mr ms)
        = (.ok (mr, cs), { commands := (cr, none), messages := (ms, none) })
      ∧ ∀ (s s2 : EffHttp CR CS MR MS) out, EffHttp.detach s = (.ok out, s2) →
          EffHttp.detach s2 = (.error "already taken", s2)) := by
  refine ⟨⟨rfl, ?_⟩, ⟨rfl, ?_⟩, ⟨rfl, ?_⟩⟩
  · intro s s2 out h
    obtain ⟨⟨crv, cso⟩, msv, mro⟩ := s
    cases cso with
    | none => simp [EffSerial.detach] at h
    | some cs2 =>
      cases mro with
      | none => simp [EffSerial.detach] at h
      | some mr2 =>
        simp only [EffSerial.detach, Prod.mk.injEq] at h
        obtain ⟨-, rfl⟩ := h
        rfl
  · intro s s2 out h
    obtain ⟨⟨crv, cso⟩, msv, mro⟩ := s
    cases cso with
    | none => simp [EffTicker.detach] at h
    | some cs2 =>
      cases mro with
      | none => simp [EffTicker.detach] at h
      | some mr2 =>
        simp only [EffTicker.detach, Prod.mk.injEq] at h
        obtain ⟨-, rfl⟩ := h
        rfl
  · intro s s2 out h
    obtain ⟨⟨crv, cso⟩, msv, mro⟩ := s
    cases cso with
    | none => simp [EffHttp.detach] at h
    | some cs2 =>
      cases mro with
      | none => simp [EffHttp.detach] at h
      | some mr2 =>
        simp only [EffHttp.detach, Prod.mk.injEq] at h
        obtain ⟨-, rfl⟩ := h
        rfl

/-- C8 witness: a second `detach` on the serial manager fails concretely. -/
theorem detach_exactly_once_witness :
    EffSerial.detach { commands := ((0 : Nat), (none : Option Nat)),
                       messages := ((3 : Nat), (none : Option Nat)) }
      = (.error "already taken",
         { commands := ((0 : Nat), (none : Option Nat)),
           messages := ((3 : Nat), (none : Option Nat)) }) :=
  (detach_exactly_once (0 : Nat) (1 : Nat) (2 : Nat) (3 : Nat)).1.2
    (EffSerial.new 0 1 2 3) _ ((2 : Nat), (1 : Nat))
    (detach_exactly_once (0 : Nat) (1 : Nat) (2 : Nat) (3 : Nat)).1.1

/-! ### C10: `raw_serial` requests skip the availability check -/

/-- C10: for every connected client and well-formed `raw_serial` message,
`update` emits the Serial `Raw` command and the `ok` acknowledgment with no
hypothesis on the serial connection state; and on the serial manager side, an
iteration that ends with no open port (port absent and open not succeeding)
writes nothing to the wire — the drained command is dropped. -/
theorem raw_serial_regardless_of_connection (now : Nat) (app : Application) (id : String)
    (client : DerivedClientState) (payload : String) (m : ClientMessage) (v : String)
    (hc : lookupClient app.connected_clients id = some client)
    (hp : parseClientMessage payload = some m)
    (hr : m.request = .rawSerial v) :
    (∃ cmds, (Application.update now app (Message.http (.clientData id payload))).2 = some cmds
      ∧ Command.serial (.raw v) ∈ cmds
      ∧ Command.http (.sendState id (serializeResponse m.tick "ok")) ∈ cmds)
    ∧ (∀ (st : SerialRunState) (env : SerialEnv)
         (res : SerialRunState × List Message × List String),
        st.port = false → env.openOk = false → serialStep st env = some res →
          res.2.2 = ([] : List String)) := by
  constructor
  · simp only [Application.update, Application.updateClientData, hc, hp, hr,
      Application.add_statuses]
    refine ⟨_, rfl, ?_, ?_⟩
    · simp
    · simp
  · intro st env res hport hopen hstep
    obtain ⟨recv, openOk, read, writeOk⟩ := env
    obtain ⟨isC, mD, cfg, port, buf⟩ := st
    simp only at hport hopen
    subst hport
    subst hopen
    cases recv with
    | closed => simp [serialStep] at hstep
    | empty =>
      cases mD <;> cases cfg <;>
        (simp [serialStep, serialIterate] at hstep; subst hstep; simp)
    | recv c =>
      cases c with
      | http hcmd =>
        cases mD <;> cases cfg <;>
          (simp [serialStep, serialIterate, SerialMap.translate] at hstep; subst hstep; simp)
      | serial inner =>
        cases inner with
        | raw t =>
          cases mD <;> cases cfg <;>
            (simp [serialStep, serialIterate, SerialMap.translate] at hstep; subst hstep; simp)
        | status =>
          cases mD <;> cases cfg <;>
            (simp [serialStep, serialIterate, SerialMap.translate] at hstep; subst hstep; simp)
        | configure cfgNew =>
          cases mD <;> cases cfg <;>
            (simp [serialStep, serialIterate, SerialMap.translate] at hstep; subst hstep; simp)
        | control b =>
          cases b <;> cases mD <;> cases cfg <;>
            (simp [serialStep, serialIterate, SerialMap.translate] at hstep; subst hstep; simp)

/-- C10 witness: raw_serial accepted while serial is `Disconnected`. -/
theorem raw_serial_regardless_of_connection_witness :
    ∃ cmds,
      (Application.update 0 appExDisc (Message.http (.clientData "c1" c2NestedPayload))).2 = some cmds
      ∧ Command.serial (.raw "G0 X1") ∈ cmds
      ∧ Command.http (.sendState "c1" (serializeResponse 5 "ok")) ∈ cmds :=
  (raw_serial_regardless_of_connection 0 appExDisc "c1" clientEx c2NestedPayload
    ⟨5, .rawSerial "G0 X1"⟩ "G0 X1" rfl rfl rfl).1

/-! ### C4: edge-triggered `Connected`/`Disconnected` messages -/

/-- `SerialParser::parse` only ever produces `Message::Serial`. -/
theorem parse_shape (bs : List Nat) :
    SerialParser.parse bs = none
    ∨ ∃ s n, SerialParser.parse bs = some (Message.serial s, n) := by
  cases hf : findNewlineByteIdx (utf8LossyChars bs) with
  | none => exact Or.inl (by simp [SerialParser.parse, hf])
  | some b =>
    by_cases hb : isCharBoundary (utf8LossyChars bs) b
    · exact Or.inr ⟨scalarsToString ((utf8LossyChars bs).take b), b + 1,
        by simp [SerialParser.parse, hf, hb]⟩
    · exact Or.inl (by simp [SerialParser.parse, hf, hb])

/-- Parsing the buffer never adds a `ConnectedSerial` message. -/
theorem parseOnce_count_conn (msgs1 : List Message) (buf : List Nat) :
    (parseOnce msgs1 buf).1.count Message.connectedSerial
      = msgs1.count Message.connectedSerial := by
  unfold parseOnce
  split
  · rfl
  · rcases parse_shape buf with h | ⟨s, n, h⟩
    · simp [h]
    · simp [h]

/-- Parsing the buffer never adds a `DisconnectedSerial` message. -/
theorem parseOnce_count_disc (msgs1 : List Message) (buf : List Nat) :
    (parseOnce msgs1 buf).1.count Message.disconnectedSerial
      = msgs1.count Message.disconnectedSerial := by
  unfold parseOnce
  split
  · rfl
  · rcases parse_shape buf with h | ⟨s, n, h⟩
    · simp [h]
    · simp [h]

/-- Per-iteration edge property: one `Serial::run` iteration emits
`ConnectedSerial` exactly when `is_connected` goes from false to true, and
`DisconnectedSerial` exactly when it goes from true to false. -/
theorem serialIterate_counts (isC : Bool) (buffer : List Nat) (env : SerialEnv)
    (sendable : Option String) (manualD : Bool) (cfg : Option SerialConfiguration)
    (port0 : Bool) :
    ((serialIterate isC buffer env sendable manualD cfg port0).2.1.count Message.connectedSerial
      = if !isC && (serialIterate isC buffer env sendable manualD cfg port0).1.isConnected
        then 1 else 0)
    ∧ ((serialIterate isC buffer env sendable manualD cfg port0).2.1.count Message.disconnectedSerial
      = if isC && !(serialIterate isC buffer env sendable manualD cfg port0).1.isConnected
        then 1 else 0) := by
  obtain ⟨recv, openOk, read, writeOk⟩ := env
  cases manualD <;> cases cfg <;> cases port0 <;> cases openOk <;> cases isC <;> cases read <;>
    simp [serialIterate, parseOnce_count_conn, parseOnce_count_disc]

/-- Per-step edge property lifted to `serialStep`. -/
theorem serialStep_edge_counts (st : SerialRunState) (env : SerialEnv)
    (st2 : SerialRunState) (msgs : List Message) (ws : List String)
    (h : serialStep st env = some (st2, msgs, ws)) :
    (msgs.count Message.connectedSerial
      = if !st.isConnected && st2.isConnected then 1 else 0)
    ∧ (msgs.count Message.disconnectedSerial
      = if st.isConnected && !st2.isConnected then 1 else 0) := by
  simp only [serialStep] at h
  repeat split at h
  all_goals repeat split at h
  all_goals
    first
      | exact Option.noConfusion h
      | (rw [Option.some.injEq] at h
         have h1 := congrArg (fun t => t.1) h
         have h2 := congrArg (fun t => t.2.1) h
         dsimp only at h1 h2
         subst h1
         subst h2
         exact serialIterate_counts _ _ _ _ _ _ _)

/-- C4: in every execution of the serial manager loop, `Connected` is emitted
exactly once per Disconnected-to-Connected transition of the manager's
connected state, and `Disconnected` exactly once per
Connected-to-Disconnected transition — repeated successful opens or reads
while already connected never re-emit either message. -/
theorem serial_connected_edge_triggered (st : SerialRunState) (envs : List SerialEnv) :
    ((serialRun st envs).2.count Message.connectedSerial
      = risingEdges st.isConnected (connTrace st envs))
    ∧ ((serialRun st envs).2.count Message.disconnectedSerial
      = fallingEdges st.isConnected (connTrace st envs)) := by
  induction envs generalizing st with
  | nil => simp [serialRun, connTrace, risingEdges, fallingEdges]
  | cons e rest ih =>
    cases hstep : serialStep st e with
    | none => simp [serialRun, connTrace, hstep, risingEdges, fallingEdges]
    | some v =>
      obtain ⟨st2, msgs, ws⟩ := v
      obtain ⟨hcc, hcd⟩ := serialStep_edge_counts st e st2 msgs ws hstep
      have ihh := ih st2
      simp only [serialRun, connTrace, hstep, risingEdges, fallingEdges, List.count_append]
      exact ⟨by rw [hcc, ihh.1], by rw [hcd, ihh.2]⟩

/-! ### C3: grbl status-line parsing

The slice pattern `[header, raw_y, raw_z, _, _, _]` in `Response::from_str`
requires *exactly* six comma-separated fields after the state token: three
position fields followed by exactly three trailing fields.  A line with any
other number of trailing fields is rejected, so "fields after the first
positions are ignored regardless of their number" fails. -/

/-- A successfully parsed machine state token contains no comma. -/
theorem machineState_no_comma (s : List Char) (st : MachineState)
    (h : MachineState.from_str s = some st) : ',' ∉ s := by
  unfold MachineState.from_str at h
  split_ifs at h with h1 h2 h3 h4 <;>
    first
      | (subst_vars; decide)
      | exact absurd h (by simp)

/-- `take_while (≠ sep)` recovers a separator-free prefix. -/
theorem takeWhile_append_sep (sep : Char) (a b : List Char) (h : sep ∉ a) :
    (a ++ sep :: b).takeWhile (fun c => c ≠ sep) = a := by
  induction a with
  | nil => simp [List.takeWhile]
  | cons x xs ih =>
    have hx : x ≠ sep := fun he => h (he ▸ List.mem_cons_self x xs)
    have ih' := ih (fun hm => h (List.mem_cons_of_mem _ hm))
    simp only [List.cons_append, List.takeWhile_cons]
    simp [hx]
    simpa using ih'

/-- `split` never produces an empty segment list. -/
theorem splitOnChar_ne_nil (sep : Char) (l : List Char) : splitOnChar sep l ≠ [] := by
  cases l with
  | nil => simp [splitOnChar]
  | cons x xs =>
    rw [splitOnChar]
    cases h : splitOnChar sep xs with
    | nil => simp
    | cons g gs =>
      by_cases hx : x = sep <;> simp [hx]

/-- `split` on a separator-free string is one segment. -/
theorem splitOnChar_no_sep (sep : Char) (a : List Char) (h : sep ∉ a) :
    splitOnChar sep a = [a] := by
  induction a with
  | nil => rfl
  | cons x xs ih =>
    have hx : x ≠ sep := fun he => h (he ▸ List.mem_cons_self x xs)
    rw [splitOnChar, ih (fun hm => h (List.mem_cons_of_mem _ hm))]
    simp [hx]

/-- `split` peels off a separator-free prefix as one segment. -/
theorem splitOnChar_append (sep : Char) (a b : List Char) (h : sep ∉ a) :
    splitOnChar sep (a ++ sep :: b) = a :: splitOnChar sep b := by
  induction a with
  | nil =>
    simp only [List.nil_append]
    rw [splitOnChar]
    cases hsp : splitOnChar sep b with
    | nil => exact absurd hsp (splitOnChar_ne_nil sep b)
    | cons g gs => simp
  | cons x xs ih =>
    have hx : x ≠ sep := fun he => h (he ▸ List.mem_cons_self x xs)
    have ih' := ih (fun hm => h (List.mem_cons_of_mem _ hm))
    simp only [List.cons_append]
    rw [splitOnChar, ih']
    simp [hx]

/-- A list is a prefix (as `isPrefixOf`) of itself followed by anything. -/
theorem isPrefixOf_append_self (a b : List Char) : a.isPrefixOf (a ++ b) = true := by
  induction a with
  | nil => simp [List.isPrefixOf]
  | cons x xs ih => simp [List.isPrefixOf, ih]

/-- A string parsed as a number does not begin with the `MPos:` pattern, so
`trim_start_matches` leaves it unchanged. -/
theorem trimMPos_of_parseF32 (x : List Char) (q : ℚ) (h : parseF32 x = some q) :
    trimMPos x = x := by
  cases hx : x with
  | nil => rfl
  | cons c cr =>
    rw [trimMPos.eq_def]
    split
    · rename_i rest heq
      rw [← hx] at heq
      rw [heq] at h
      exact absurd h (by rw [show parseF32 ('M' :: 'P' :: 'o' :: 's' :: ':' :: rest) = none from rfl]; simp)
    · rfl

/-- The comma split of a well-shaped status line. -/
theorem splitOnChar_statusLine (stateTok x y z t1 t2 t3 : List Char)
    (hst : ',' ∉ stateTok) (hx : ',' ∉ x) (hy : ',' ∉ y) (hz : ',' ∉ z)
    (h1 : ',' ∉ t1) (h2 : ',' ∉ t2) (h3 : ',' ∉ t3) :
    splitOnChar ',' (statusLine stateTok x y z t1 t2 t3)
      = [('<' :: stateTok), ("MPos:".data ++ x), y, z, t1, t2, t3] := by
  have hA1 : ',' ∉ ('<' :: stateTok) := by simp [hst]
  have hA2 : ',' ∉ ("MPos:".data ++ x) := by
    simp only [List.mem_append]
    rintro (hm | hm)
    · revert hm; decide
    · exact hx hm
  unfold statusLine
  rw [show ('<' :: stateTok ++ ',' :: "MPos:".data ++ x ++ ',' :: y ++ ',' :: z
        ++ ',' :: t1 ++ ',' :: t2 ++ ',' :: t3)
      = (('<' :: stateTok) ++ ',' :: (("MPos:".data ++ x) ++ ',' :: (y ++ ',' :: (z
        ++ ',' :: (t1 ++ ',' :: (t2 ++ ',' :: t3)))))) by simp [List.append_assoc]]
  rw [splitOnChar_append ',' _ _ hA1, splitOnChar_append ',' _ _ hA2,
    splitOnChar_append ',' _ _ hy, splitOnChar_append ',' _ _ hz,
    splitOnChar_append ',' _ _ h1, splitOnChar_append ',' _ _ h2,
    splitOnChar_no_sep ',' _ h3]

/-- `Response::from_str` on a well-shaped status line reduces to the three
coordinate parses. -/
theorem from_str_statusLine (stateTok : List Char) (st : MachineState)
    (x y z t1 t2 t3 : List Char)
    (hst : MachineState.from_str stateTok = some st)
    (hx : ',' ∉ x) (hy : ',' ∉ y) (hz : ',' ∉ z)
    (h1 : ',' ∉ t1) (h2 : ',' ∉ t2) (h3 : ',' ∉ t3) :
    Response.from_str (statusLine stateTok x y z t1 t2 t3)
      = match parseF32 (trimMPos ("MPos:".data ++ x)), parseF32 y, parseF32 z with
        | some qx, some qy, some qz => some (.status st ⟨qx, qy, qz⟩)
        | _, _, _ => none := by
  have hcomma := machineState_no_comma stateTok st hst
  have hsplit := splitOnChar_statusLine stateTok x y z t1 t2 t3 hcomma hx hy hz h1 h2 h3
  have hok : statusLine stateTok x y z t1 t2 t3 ≠ "ok".data := by
    unfold statusLine
    rw [show "ok".data = ['o', 'k'] from rfl]
    simp
  have htk : (stateTok ++ ',' :: "MPos:".data ++ x ++ ',' :: y ++ ',' :: z
      ++ ',' :: t1 ++ ',' :: t2 ++ ',' :: t3).takeWhile (fun c => c ≠ ',') = stateTok := by
    rw [show (stateTok ++ ',' :: "MPos:".data ++ x ++ ',' :: y ++ ',' :: z
        ++ ',' :: t1 ++ ',' :: t2 ++ ',' :: t3)
      = (stateTok ++ ',' :: ("MPos:".data ++ x ++ ',' :: y ++ ',' :: z
        ++ ',' :: t1 ++ ',' :: t2 ++ ',' :: t3)) by simp [List.append_assoc]]
    exact takeWhile_append_sep ',' _ _ hcomma
  unfold Response.from_str
  rw [if_neg hok]
  unfold statusLine
  simp only [List.cons_append] at hsplit ⊢
  rw [htk, hst]
  unfold statusLine at hsplit
  simp only [List.cons_append] at hsplit
  rw [hsplit]
  simp only [List.drop_succ_cons, List.drop_zero, List.nil_append]
  rw [show ('M' :: 'P' :: 'o' :: 's' :: ':' :: x) = (['M', 'P', 'o', 's', ':'] ++ x) from rfl,
    isPrefixOf_append_self]
  simp

/-- Unfolding of `Response::from_str` on a `<`-prefixed line. -/
theorem from_str_lt_cons (rest : List Char) :
    Response.from_str ('<' :: rest)
      = match MachineState.from_str (rest.takeWhile (fun c => c ≠ ',')) with
        | none => none
        | some state =>
          match (splitOnChar ',' ('<' :: rest)).drop 1 with
          | [header, rawY, rawZ, _, _, _] =>
            if "MPos:".data.isPrefixOf header then
              match parseF32 (trimMPos header), parseF32 rawY, parseF32 rawZ with
              | some qx, some qy, some qz => some (.status state ⟨qx, qy, qz⟩)
              | _, _, _ => none
            else none
          | _ => none := by
  rfl

/-- C3 counterexample: a line with a valid state token, numeric `MPos`
coordinates and *two* trailing fields is a parse error — refuting "parses
regardless of the number of trailing fields". -/
theorem grbl_two_trailing_fields_rejected :
    Response.from_str "<Run,MPos:1.000,2.000,3.000,WPos:0,0>".data = none
    ∧ MachineState.from_str "Run".data = some .run
    ∧ parseF32 "1.000".data = some 1
    ∧ parseF32 "2.000".data = some 2
    ∧ parseF32 "3.000".data = some 3 := by
  exact ⟨rfl, rfl, by decide, by decide, by decide⟩

/-- C3 (amended): parsing follows `<STATE,MPos:X,Y,Z,t1,t2,t3>` with exactly
three trailing comma-separated fields (of arbitrary content): the scenario
line parses to `Run` at `(1.0, 2.0, 3.0)`; any valid state with numeric
coordinates and exactly three trailing fields parses; a malformed state token
is a parse error; a non-numeric coordinate is a parse error; the literal line
`ok` parses to `Ok`; any other line is an error. -/
theorem grbl_response_parsing :
    (Response.from_str "<Run,MPos:1.000,2.000,3.000,WPos:0,0,0>".data
      = some (.status .run ⟨1, 2, 3⟩))
    ∧ (Response.from_str "ok".data = some .ok)
    ∧ (∀ stateTok st x y z t1 t2 t3 qx qy qz,
        MachineState.from_str stateTok = some st →
        parseF32 x = some qx → parseF32 y = some qy → parseF32 z = some qz →
        ',' ∉ x → ',' ∉ y → ',' ∉ z → ',' ∉ t1 → ',' ∉ t2 → ',' ∉ t3 →
        Response.from_str (statusLine stateTok x y z t1 t2 t3)
          = some (.status st ⟨qx, qy, qz⟩))
    ∧ (∀ rest, MachineState.from_str (rest.takeWhile (fun c => c ≠ ',')) = none →
        Response.from_str ('<' :: rest) = none)
    ∧ (∀ stateTok st x y z t1 t2 t3,
        MachineState.from_str stateTok = some st →
        (parseF32 (trimMPos ("MPos:".data ++ x)) = none ∨ parseF32 y = none
          ∨ parseF32 z = none) →
        ',' ∉ x → ',' ∉ y → ',' ∉ z → ',' ∉ t1 → ',' ∉ t2 → ',' ∉ t3 →
        Response.from_str (statusLine stateTok x y z t1 t2 t3) = none)
    ∧ (∀ s, s ≠ "ok".data → (∀ rest, s ≠ '<' :: rest) → Response.from_str s = none) := by
  refine ⟨by decide, rfl, ?_, ?_, ?_, ?_⟩
  · intro stateTok st x y z t1 t2 t3 qx qy qz hst hx hy hz cx cy cz c1 c2 c3
    rw [from_str_statusLine stateTok st x y z t1 t2 t3 hst cx cy cz c1 c2 c3]
    rw [show trimMPos ("MPos:".data ++ x) = trimMPos x from rfl,
      trimMPos_of_parseF32 x qx hx, hx, hy, hz]
  · intro rest hbad
    rw [from_str_lt_cons, hbad]
  · intro stateTok st x y z t1 t2 t3 hst hbad cx cy cz c1 c2 c3
    rw [from_str_statusLine stateTok st x y z t1 t2 t3 hst cx cy cz c1 c2 c3]
    rcases hbad with h | h | h <;> rw [h] <;>
      first
        | rfl
        | (cases parseF32 (trimMPos ("MPos:".data ++ x)) <;>
            cases parseF32 y <;> cases parseF32 z <;> rfl)
  · intro s hok hlt
    unfold Response.from_str
    rw [if_neg hok]
    cases s with
    | nil => rfl
    | cons c cr =>
      by_cases hc : c = '<'
      · exact absurd (hc ▸ rfl) (hlt cr)
      · -- the `'<' :: rest` arm does not match
        split
        · rename_i rest heq
          injection heq with hch htl
          exact absurd hch hc
        · rfl

/-! ### C7: serial line-parser progress

`SerialParser::parse` computes `bytes_consumed` as a byte index in the
*lossy-decoded* string.  On valid UTF-8 the decoded byte index equals the raw
buffer index of the newline, but an invalid byte is replaced by U+FFFD (three
bytes once re-encoded), shifting the index: `parse` can consume more than the
first frame, dropping complete frames.  The claim's consumed-bytes equation
and drain property therefore hold only for valid UTF-8 buffers. -/

/-- Scalar bounds of a decoded two-byte sequence. -/
theorem scalar2_bounds (b b2 : Nat) (hb : 0xC2 ≤ b ∧ b ≤ 0xDF) (hc : cont1ok b b2 = true) :
    0x80 ≤ (b - 0xC0) * 0x40 + (b2 - 0x80) ∧ (b - 0xC0) * 0x40 + (b2 - 0x80) < 0x800 := by
  unfold cont1ok contLo contHi at hc
  split_ifs at hc <;> simp only [Bool.and_eq_true, decide_eq_true_eq] at hc <;> omega

/-- Scalar bounds of a decoded three-byte sequence. -/
theorem scalar3_bounds (b b2 b3 : Nat) (hb : 0xE0 ≤ b ∧ b ≤ 0xEF)
    (hc : cont1ok b b2 = true) (hc3 : isCont b3 = true) :
    0x800 ≤ (b - 0xE0) * 0x1000 + (b2 - 0x80) * 0x40 + (b3 - 0x80)
    ∧ (b - 0xE0) * 0x1000 + (b2 - 0x80) * 0x40 + (b3 - 0x80) < 0x10000 := by
  unfold cont1ok contLo contHi at hc
  unfold isCont at hc3
  simp only [Bool.and_eq_true, decide_eq_true_eq] at hc3
  split_ifs at hc <;> simp only [Bool.and_eq_true, decide_eq_true_eq] at hc <;> omega

/-- Scalar lower bound of a decoded four-byte sequence. -/
theorem scalar4_bounds (b b2 b3 b4 : Nat) (hb : 0xF0 ≤ b ∧ b ≤ 0xF4)
    (hc : cont1ok b b2 = true) (hc3 : isCont b3 = true) (hc4 : isCont b4 = true) :
    0x10000 ≤ (b - 0xF0) * 0x40000 + (b2 - 0x80) * 0x1000 + (b3 - 0x80) * 0x40 + (b4 - 0x80) := by
  unfold cont1ok contLo contHi at hc
  unfold isCont at hc3 hc4
  simp only [Bool.and_eq_true, decide_eq_true_eq] at hc3 hc4
  split_ifs at hc <;> simp only [Bool.and_eq_true, decide_eq_true_eq] at hc <;> omega

/-- On a valid UTF-8 buffer, the byte index of the first newline in the
decoded string equals its byte index in the raw buffer. -/
theorem find_decode_eqF : ∀ (fuel : Nat) (bs : List Nat), bs.length ≤ fuel →
    validUtf8F fuel bs = true →
    findNewlineByteIdx (utf8LossyCharsF fuel bs) = firstNlIdx bs := by
  intro fuel
  induction fuel with
  | zero =>
    intro bs hlen _
    cases bs with
    | nil => rfl
    | cons b rest => simp at hlen
  | succ fuel ih =>
    intro bs hlen h
    cases bs with
    | nil => rfl
    | cons b rest =>
      simp only [List.length_cons, Nat.add_le_add_iff_right] at hlen
      by_cases hb1 : b ≤ 0x7F
      · have hl : leadLen b = 1 := by simp [leadLen, hb1]
        simp only [validUtf8F, hl] at h
        have ihr := ih rest hlen h
        simp only [utf8LossyCharsF, hl]
        by_cases hb10 : b = 10
        · simp [findNewlineByteIdx, firstNlIdx, hb10]
        · have hcl : utf8CharLen b = 1 := by simp [utf8CharLen]; omega
          simp only [findNewlineByteIdx, firstNlIdx, hb10, if_neg, ihr, hcl]
          cases firstNlIdx rest <;> simp <;> omega
      · by_cases hb2 : 0xC2 ≤ b ∧ b ≤ 0xDF
        · have hl : leadLen b = 2 := by
            unfold leadLen
            rw [if_neg (by omega), if_pos (by simp; omega)]
          simp only [validUtf8F, hl] at h
          cases rest with
          | nil => exact absurd h (by simp)
          | cons b2 r2 =>
            simp only [Bool.and_eq_true] at h
            obtain ⟨hc, hv⟩ := h
            have hbnds := scalar2_bounds b b2 hb2 hc
            have hcont : 0x80 ≤ b2 ∧ b2 ≤ 0xBF := by
              unfold cont1ok contLo contHi at hc
              split_ifs at hc <;> simp only [Bool.and_eq_true, decide_eq_true_eq] at hc <;> omega
            have ihr := ih r2 (by simp at hlen; omega) hv
            simp only [utf8LossyCharsF, hl, hc, if_true]
            have hcl : utf8CharLen ((b - 0xC0) * 0x40 + (b2 - 0x80)) = 2 := by
              unfold utf8CharLen
              rw [if_neg (by omega), if_pos (by omega)]
            simp only [findNewlineByteIdx, firstNlIdx, hcl, ihr]
            rw [if_neg (by omega), if_neg (by omega), if_neg (by omega)]
            cases firstNlIdx r2 <;> simp <;> omega
        · by_cases hb3 : 0xE0 ≤ b ∧ b ≤ 0xEF
          · have hl : leadLen b = 3 := by
              unfold leadLen
              rw [if_neg (by omega), if_neg (by simp; omega), if_pos (by simp; omega)]
            simp only [validUtf8F, hl] at h
            cases rest with
            | nil => exact absurd h (by simp)
            | cons b2 r2' =>
              cases r2' with
              | nil => exact absurd h (by simp)
              | cons b3 r3 =>
                simp only [Bool.and_eq_true] at h
                obtain ⟨⟨hc, hc3⟩, hv⟩ := h
                have hbnds := scalar3_bounds b b2 b3 hb3 hc hc3
                have hcont : 0x80 ≤ b2 ∧ b2 ≤ 0xBF := by
                  unfold cont1ok contLo contHi at hc
                  split_ifs at hc <;>
                    simp only [Bool.and_eq_true, decide_eq_true_eq] at hc <;> omega
                have hcont3 : 0x80 ≤ b3 ∧ b3 ≤ 0xBF := by
                  unfold isCont at hc3
                  simp only [Bool.and_eq_true, decide_eq_true_eq] at hc3
                  omega
                have ihr := ih r3 (by simp at hlen; omega) hv
                simp only [utf8LossyCharsF, hl, hc, hc3, if_true]
                have hcl : utf8CharLen ((b - 0xE0) * 0x1000 + (b2 - 0x80) * 0x40 + (b3 - 0x80))
                    = 3 := by
                  unfold utf8CharLen
                  rw [if_neg (by omega), if_neg (by omega), if_pos (by omega)]
                simp only [findNewlineByteIdx, firstNlIdx, hcl, ihr]
                rw [if_neg (by omega), if_neg (by omega), if_neg (by omega), if_neg (by omega)]
                cases firstNlIdx r3 <;> simp <;> omega
          · by_cases hb4 : 0xF0 ≤ b ∧ b ≤ 0xF4
            · have hl : leadLen b = 4 := by
                unfold leadLen
                rw [if_neg (by omega), if_neg (by simp; omega), if_neg (by simp; omega),
                  if_pos (by simp; omega)]
              simp only [validUtf8F, hl] at h
              cases rest with
              | nil => exact absurd h (by simp)
              | cons b2 r2' =>
                cases r2' with
                | nil => exact absurd h (by simp)
                | cons b3 r3' =>
                  cases r3' with
                  | nil => exact absurd h (by simp)
                  | cons b4 r4 =>
                    simp only [Bool.and_eq_true] at h
                    obtain ⟨⟨⟨hc, hc3⟩, hc4⟩, hv⟩ := h
                    have hbnds := scalar4_bounds b b2 b3 b4 hb4 hc hc3 hc4
                    have hcont : 0x80 ≤ b2 ∧ b2 ≤ 0xBF := by
                      unfold cont1ok contLo contHi at hc
                      split_ifs at hc <;>
                        simp only [Bool.and_eq_true, decide_eq_true_eq] at hc <;> omega
                    have hcont3 : 0x80 ≤ b3 ∧ b3 ≤ 0xBF := by
                      unfold isCont at hc3
                      simp only [Bool.and_eq_true, decide_eq_true_eq] at hc3
                      omega
                    have hcont4 : 0x80 ≤ b4 ∧ b4 ≤ 0xBF := by
                      unfold isCont at hc4
                      simp only [Bool.and_eq_true, decide_eq_true_eq] at hc4
                      omega
                    have ihr := ih r4 (by simp at hlen; omega) hv
                    simp only [utf8LossyCharsF, hl, hc, hc3, hc4, if_true]
                    have hcl : utf8CharLen ((b - 0xF0) * 0x40000 + (b2 - 0x80) * 0x1000
                        + (b3 - 0x80) * 0x40 + (b4 - 0x80)) = 4 := by
                      unfold utf8CharLen
                      rw [if_neg (by omega), if_neg (by omega), if_neg (by omega)]
                    simp only [findNewlineByteIdx, firstNlIdx, hcl, ihr]
                    rw [if_neg (by omega), if_neg (by omega), if_neg (by omega),
                      if_neg (by omega), if_neg (by omega)]
                    cases firstNlIdx r4 <;> simp <;> omega
            · have hl : leadLen b = 0 := by
                unfold leadLen
                rw [if_neg (by omega), if_neg (by simp; omega), if_neg (by simp; omega),
                  if_neg (by simp; omega)]
              simp only [validUtf8F, hl] at h
              exact absurd h (by simp)

/-- On a valid UTF-8 buffer, the newline byte index in the decoded string
equals the newline index in the raw buffer. -/
theorem find_decode_eq (bs : List Nat) (h : validUtf8 bs = true) :
    findNewlineByteIdx (utf8LossyChars bs) = firstNlIdx bs :=
  find_decode_eqF bs.length bs (Nat.le_refl _) h

/-- Every scalar value occupies at least one byte. -/
theorem utf8CharLen_pos (v : Nat) : 1 ≤ utf8CharLen v := by
  unfold utf8CharLen
  split_ifs <;> omega

/-- The byte index returned by the newline search is a character boundary. -/
theorem boundary_of_find : ∀ (cs : List Nat) (b : Nat),
    findNewlineByteIdx cs = some b → isCharBoundary cs b = true := by
  intro cs
  induction cs with
  | nil => intro b h; simp [findNewlineByteIdx] at h
  | cons v rest ih =>
    intro b h
    simp only [findNewlineByteIdx] at h
    by_cases hv : v = 10
    · rw [if_pos hv] at h
      obtain rfl : (0 : Nat) = b := by simpa using h
      rfl
    · rw [if_neg hv] at h
      cases hfr : findNewlineByteIdx rest with
      | none => rw [hfr] at h; simp at h
      | some b' =>
        rw [hfr] at h
        simp at h
        have hpos := utf8CharLen_pos v
        obtain ⟨i, hi⟩ : ∃ i, b = i + 1 := ⟨b - 1, by omega⟩
        subst hi
        simp only [isCharBoundary]
        rw [if_neg (by omega)]
        have : i + 1 - utf8CharLen v = b' := by omega
        rw [this]
        exact ih b' hfr

/-- Validity is independent of the fuel, given sufficiency. -/
theorem validUtf8F_mono : ∀ (f1 f2 : Nat) (bs : List Nat), bs.length ≤ f1 → bs.length ≤ f2 →
    validUtf8F f1 bs = validUtf8F f2 bs := by
  intro f1
  induction f1 with
  | zero =>
    intro f2 bs h1 h2
    cases bs with
    | nil => cases f2 <;> rfl
    | cons b rest => simp at h1
  | succ f1 ih =>
    intro f2 bs h1 h2
    cases bs with
    | nil => cases f2 <;> rfl
    | cons b rest =>
      cases f2 with
      | zero => simp at h2
      | succ f2' =>
        simp only [List.length_cons, Nat.add_le_add_iff_right] at h1 h2
        by_cases hb1 : b ≤ 0x7F
        · have hl : leadLen b = 1 := by simp [leadLen, hb1]
          simp only [validUtf8F, hl]
          exact ih f2' rest h1 h2
        · by_cases hb2 : 0xC2 ≤ b ∧ b ≤ 0xDF
          · have hl : leadLen b = 2 := by
              unfold leadLen
              rw [if_neg (by omega), if_pos (by simp; omega)]
            simp only [validUtf8F, hl]
            cases rest with
            | nil => rfl
            | cons b2 r2 =>
              simp only [List.length_cons] at h1 h2
              dsimp only
              rw [ih f2' r2 (by omega) (by omega)]
          · by_cases hb3 : 0xE0 ≤ b ∧ b ≤ 0xEF
            · have hl : leadLen b = 3 := by
                unfold leadLen
                rw [if_neg (by omega), if_neg (by simp; omega), if_pos (by simp; omega)]
              simp only [validUtf8F, hl]
              cases rest with
              | nil => rfl
              | cons b2 r2' =>
                cases r2' with
                | nil => rfl
                | cons b3 r3 =>
                  simp only [List.length_cons] at h1 h2
                  dsimp only
                  rw [ih f2' r3 (by omega) (by omega)]
            · by_cases hb4 : 0xF0 ≤ b ∧ b ≤ 0xF4
              · have hl : leadLen b = 4 := by
                  unfold leadLen
                  rw [if_neg (by omega), if_neg (by simp; omega), if_neg (by simp; omega),
                    if_pos (by simp; omega)]
                simp only [validUtf8F, hl]
                cases rest with
                | nil => rfl
                | cons b2 r2' =>
                  cases r2' with
                  | nil => rfl
                  | cons b3 r3' =>
                    cases r3' with
                    | nil => rfl
                    | cons b4 r4 =>
                      simp only [List.length_cons] at h1 h2
                      dsimp only
                      rw [ih f2' r4 (by omega) (by omega)]
              · have hl : leadLen b = 0 := by
                  unfold leadLen
                  rw [if_neg (by omega), if_neg (by simp; omega), if_neg (by simp; omega),
                    if_neg (by simp; omega)]
                simp only [validUtf8F, hl]

/-- A parse on a valid buffer succeeds exactly at the raw newline index,
consuming that index plus one. -/
theorem parse_of_valid (bs : List Nat) (h : validUtf8 bs = true) :
    (∀ i, firstNlIdx bs = some i → SerialParser.parse bs
        = some (Message.serial (scalarsToString ((utf8LossyChars bs).take i)), i + 1))
    ∧ (firstNlIdx bs = none → SerialParser.parse bs = none) := by
  have hfd := find_decode_eq bs h
  constructor
  · intro i hi
    have hfind : findNewlineByteIdx (utf8LossyChars bs) = some i := hfd.trans hi
    have hbd := boundary_of_find (utf8LossyChars bs) i hfind
    simp [SerialParser.parse, hfind, hbd]
  · intro hn
    have hfind : findNewlineByteIdx (utf8LossyChars bs) = none := hfd.trans hn
    simp [SerialParser.parse, hfind]

/-- Whenever the parser returns, the consumed byte count is positive. -/
theorem parse_consumed_pos (bs : List Nat) (m : Message) (n : Nat)
    (h : SerialParser.parse bs = some (m, n)) : 0 < n := by
  simp only [SerialParser.parse] at h
  cases hf : findNewlineByteIdx (utf8LossyChars bs) with
  | none => rw [hf] at h; simp at h
  | some b =>
    rw [hf] at h
    dsimp only at h
    split at h
    · simp only [Option.some.injEq, Prod.mk.injEq] at h
      omega
    · simp at h

/-- Dropping through the first newline of a valid buffer leaves a valid
buffer. -/
theorem valid_drop_after_nl : ∀ (fuel : Nat) (bs : List Nat), bs.length ≤ fuel →
    validUtf8F fuel bs = true → ∀ i, firstNlIdx bs = some i →
    validUtf8 (bs.drop (i + 1)) = true := by
  intro fuel
  induction fuel with
  | zero =>
    intro bs hlen _ i hi
    cases bs with
    | nil => simp [firstNlIdx] at hi
    | cons b rest => simp at hlen
  | succ fuel ih =>
    intro bs hlen h i hi
    cases bs with
    | nil => simp [firstNlIdx] at hi
    | cons b rest =>
      simp only [List.length_cons, Nat.add_le_add_iff_right] at hlen
      by_cases hb1 : b ≤ 0x7F
      · have hl : leadLen b = 1 := by simp [leadLen, hb1]
        simp only [validUtf8F, hl] at h
        simp only [firstNlIdx] at hi
        by_cases hb : b = 10
        · rw [if_pos hb] at hi
          obtain rfl : (0 : Nat) = i := by simpa using hi
          simp only [List.drop_succ_cons, List.drop_zero]
          unfold validUtf8
          rw [validUtf8F_mono rest.length fuel rest (Nat.le_refl _) hlen]
          exact h
        · rw [if_neg hb] at hi
          cases hfr : firstNlIdx rest with
          | none => rw [hfr] at hi; simp at hi
          | some j =>
            rw [hfr] at hi
            simp at hi
            subst hi
            simp only [List.drop_succ_cons]
            exact ih rest hlen h j hfr
      · by_cases hb2 : 0xC2 ≤ b ∧ b ≤ 0xDF
        · have hl : leadLen b = 2 := by
            unfold leadLen
            rw [if_neg (by omega), if_pos (by simp; omega)]
          simp only [validUtf8F, hl] at h
          cases rest with
          | nil => exact absurd h (by simp)
          | cons b2 r2 =>
            simp only [Bool.and_eq_true] at h
            obtain ⟨hc, hv⟩ := h
            have hcont : 0x80 ≤ b2 ∧ b2 ≤ 0xBF := by
              unfold cont1ok contLo contHi at hc
              split_ifs at hc <;> simp only [Bool.and_eq_true, decide_eq_true_eq] at hc <;> omega
            simp only [firstNlIdx] at hi
            rw [if_neg (by omega), if_neg (by omega)] at hi
            cases hfr : firstNlIdx r2 with
            | none => rw [hfr] at hi; simp at hi
            | some j =>
              rw [hfr] at hi
              simp at hi
              subst hi
              simp only [List.drop_succ_cons]
              simp only [List.length_cons] at hlen
              exact ih r2 (by omega) hv j hfr
        · by_cases hb3 : 0xE0 ≤ b ∧ b ≤ 0xEF
          · have hl : leadLen b = 3 := by
              unfold leadLen
              rw [if_neg (by omega), if_neg (by simp; omega), if_pos (by simp; omega)]
            simp only [validUtf8F, hl] at h
            cases rest with
            | nil => exact absurd h (by simp)
            | cons b2 r2' =>
              cases r2' with
              | nil => exact absurd h (by simp)
              | cons b3 r3 =>
                simp only [Bool.and_eq_true] at h
                obtain ⟨⟨hc, hc3⟩, hv⟩ := h
                have hcont : 0x80 ≤ b2 ∧ b2 ≤ 0xBF := by
                  unfold cont1ok contLo contHi at hc
                  split_ifs at hc <;>
                    simp only [Bool.and_eq_true, decide_eq_true_eq] at hc <;> omega
                have hcont3 : 0x80 ≤ b3 ∧ b3 ≤ 0xBF := by
                  unfold isCont at hc3
                  simp only [Bool.and_eq_true, decide_eq_true_eq] at hc3
                  omega
                simp only [firstNlIdx] at hi
                rw [if_neg (by omega), if_neg (by omega), if_neg (by omega)] at hi
                cases hfr : firstNlIdx r3 with
                | none => rw [hfr] at hi; simp at hi
                | some j =>
                  rw [hfr] at hi
                  simp at hi
                  subst hi
                  simp only [List.drop_succ_cons]
                  simp only [List.length_cons] at hlen
                  exact ih r3 (by omega) hv j hfr
          · by_cases hb4 : 0xF0 ≤ b ∧ b ≤ 0xF4
            · have hl : leadLen b = 4 := by
                unfold leadLen
                rw [if_neg (by omega), if_neg (by simp; omega), if_neg (by simp; omega),
                  if_pos (by simp; omega)]
              simp only [validUtf8F, hl] at h
              cases rest with
              | nil => exact absurd h (by simp)
              | cons b2 r2' =>
                cases r2' with
                | nil => exact absurd h (by simp)
                | cons b3 r3' =>
                  cases r3' with
                  | nil => exact absurd h (by simp)
                  | cons b4 r4 =>
                    simp only [Bool.and_eq_true] at h
                    obtain ⟨⟨⟨hc, hc3⟩, hc4⟩, hv⟩ := h
                    have hcont : 0x80 ≤ b2 ∧ b2 ≤ 0xBF := by
                      unfold cont1ok contLo contHi at hc
                      split_ifs at hc <;>
                        simp only [Bool.and_eq_true, decide_eq_true_eq] at hc <;> omega
                    have hcont3 : 0x80 ≤ b3 ∧ b3 ≤ 0xBF := by
                      unfold isCont at hc3
                      simp only [Bool.and_eq_true, decide_eq_true_eq] at hc3
                      omega
                    have hcont4 : 0x80 ≤ b4 ∧ b4 ≤ 0xBF := by
                      unfold isCont at hc4
                      simp only [Bool.and_eq_true, decide_eq_true_eq] at hc4
                      omega
                    simp only [firstNlIdx] at hi
                    rw [if_neg (by omega), if_neg (by omega), if_neg (by omega),
                      if_neg (by omega)] at hi
                    cases hfr : firstNlIdx r4 with
                    | none => rw [hfr] at hi; simp at hi
                    | some j =>
                      rw [hfr] at hi
                      simp at hi
                      subst hi
                      simp only [List.drop_succ_cons]
                      simp only [List.length_cons] at hlen
                      exact ih r4 (by omega) hv j hfr
            · have hl : leadLen b = 0 := by
                unfold leadLen
                rw [if_neg (by omega), if_neg (by simp; omega), if_neg (by simp; omega),
                  if_neg (by simp; omega)]
              simp only [validUtf8F, hl] at h
              exact absurd h (by simp)

/-- No newline in the buffer exactly when the search fails. -/
theorem firstNlIdx_none_iff (bs : List Nat) : firstNlIdx bs = none ↔ (10 : Nat) ∉ bs := by
  induction bs with
  | nil => simp [firstNlIdx]
  | cons b rest ih =>
    simp only [firstNlIdx, List.mem_cons]
    by_cases hb : b = 10
    · simp [hb]
    · rw [if_neg hb]
      cases hfr : firstNlIdx rest with
      | none =>
        constructor
        · intro _ hmem
          rcases hmem with h10 | hmem
          · exact hb h10.symm
          · exact (ih.mp hfr) hmem
        · intro _
          rfl
      | some i =>
        constructor
        · intro hcontra
          simp at hcontra
        · intro hmem
          exfalso
          have h10 : (10 : Nat) ∉ rest := fun hm => hmem (Or.inr hm)
          rw [ih.mpr h10] at hfr
          simp at hfr


/-- Index and count bookkeeping for the first newline. -/
theorem firstNlIdx_facts : ∀ (bs : List Nat) (i : Nat), firstNlIdx bs = some i →
    i + 1 ≤ bs.length ∧ (bs.drop (i + 1)).count 10 + 1 = bs.count 10 := by
  intro bs
  induction bs with
  | nil => intro i h; simp [firstNlIdx] at h
  | cons b rest ih =>
    intro i h
    simp only [firstNlIdx] at h
    by_cases hb : b = 10
    · rw [if_pos hb] at h
      obtain rfl : (0 : Nat) = i := by simpa using h
      refine ⟨by simp, ?_⟩
      simp [hb, List.count_cons]
    · rw [if_neg hb] at h
      cases hfr : firstNlIdx rest with
      | none => rw [hfr] at h; simp at h
      | some j =>
        rw [hfr] at h
        simp at h
        subst h
        obtain ⟨hlen, hcount⟩ := ih j hfr
        refine ⟨by simp; omega, ?_⟩
        simp only [List.drop_succ_cons, List.count_cons]
        simp [hb, hcount]

/-- Repeated parsing of a valid buffer drains one message per newline and
leaves the newline-free trailing partial frame, on which the parser returns
nothing. -/
theorem drain_drains : ∀ (fuel : Nat) (bs : List Nat), bs.length ≤ fuel →
    validUtf8 bs = true →
    (drainFrames fuel bs).1.length = bs.count 10
    ∧ firstNlIdx (drainFrames fuel bs).2 = none
    ∧ SerialParser.parse (drainFrames fuel bs).2 = none
    ∧ ∃ pre, bs = pre ++ (drainFrames fuel bs).2 := by
  intro fuel
  induction fuel with
  | zero =>
    intro bs hlen hv
    have hnil : bs = [] := List.length_eq_zero.mp (by omega)
    subst hnil
    exact ⟨by simp [drainFrames], by simp [drainFrames, firstNlIdx],
      by simp [drainFrames]; rfl, ⟨[], by simp [drainFrames]⟩⟩
  | succ fuel ih =>
    intro bs hlen hv
    have hp := parse_of_valid bs hv
    cases hfn : firstNlIdx bs with
    | none =>
      have hpn := hp.2 hfn
      have hd : drainFrames (fuel + 1) bs = ([], bs) := by
        simp [drainFrames, hpn]
      rw [hd]
      refine ⟨?_, hfn, hpn, ⟨[], rfl⟩⟩
      have := (firstNlIdx_none_iff bs).mp hfn
      simp [List.count_eq_zero.mpr this]
    | some i =>
      have hpi := hp.1 i hfn
      obtain ⟨hle, hcount⟩ := firstNlIdx_facts bs i hfn
      have hvd := valid_drop_after_nl bs.length bs (Nat.le_refl _) hv i hfn
      obtain ⟨ih1, ih2, ih3, pre', ih4⟩ :=
        ih (bs.drop (i + 1)) (by rw [List.length_drop]; omega) hvd
      have hd : drainFrames (fuel + 1) bs
          = (Message.serial (scalarsToString ((utf8LossyChars bs).take i))
              :: (drainFrames fuel (bs.drop (i + 1))).1,
             (drainFrames fuel (bs.drop (i + 1))).2) := by
        simp [drainFrames, hpi]
      rw [hd]
      refine ⟨?_, ih2, ih3, ?_⟩
      · simp only [List.length_cons, ih1]
        omega
      · refine ⟨bs.take (i + 1) ++ pre', ?_⟩
        conv_lhs => rw [← List.take_append_drop (i + 1) bs]
        rw [List.append_assoc, ← ih4]

/-- C7 counterexample: on the invalid-UTF-8 buffer `[0xFF, 0x0A]` the parser
reports 4 consumed bytes — the byte index of the newline in the decoded
string (U+FFFD re-encodes to three bytes) — while the first newline-terminated
frame is 2 bytes long; on `[0xFF, 0x0A, 0x41, 0x0A]` one call consumes past
the complete second frame, so draining yields one message for two frames. -/
theorem parse_consumed_mismatch :
    SerialParser.parse [255, 10] = some (Message.serial (scalarsToString [0xFFFD, 10]), 4)
    ∧ firstNlIdx [255, 10] = some 1
    ∧ (4 : Nat) ≠ 1 + 1
    ∧ drainFrames 4 [255, 10, 65, 10]
        = ([Message.serial (scalarsToString [0xFFFD, 10, 65])], [])
    ∧ ([255, 10, 65, 10] : List Nat).count 10 = 2 := by
  exact ⟨rfl, rfl, by decide, rfl, by decide⟩

/-- C7 (amended): one parser call returns at most one `(Message, consumed)`
pair (it is an `Option`) and a returned consumed count is strictly positive;
for valid UTF-8 buffers the consumed count equals the first newline-terminated
frame's length including the newline (newline index plus one), the parser
returns nothing iff the buffer holds no complete frame, and repeated calls
with the consumed prefix removed drain one message per newline, leaving the
newline-free trailing partial frame on which the parser returns nothing. -/
theorem serial_parser_progress :
    (∀ (bs : List Nat) (m : Message) (n : Nat),
      SerialParser.parse bs = some (m, n) → 0 < n)
    ∧ (∀ bs : List Nat, validUtf8 bs = true →
        (∀ i, firstNlIdx bs = some i → ∃ m, SerialParser.parse bs = some (m, i + 1))
        ∧ (firstNlIdx bs = none → SerialParser.parse bs = none))
    ∧ (∀ bs : List Nat, validUtf8 bs = true →
        (drainFrames bs.length bs).1.length = bs.count 10
        ∧ firstNlIdx (drainFrames bs.length bs).2 = none
        ∧ SerialParser.parse (drainFrames bs.length bs).2 = none
        ∧ ∃ pre, bs = pre ++ (drainFrames bs.length bs).2) := by
  refine ⟨parse_consumed_pos, ?_, ?_⟩
  · intro bs hv
    have hp := parse_of_valid bs hv
    exact ⟨fun i hi => ⟨_, hp.1 i hi⟩, hp.2⟩
  · intro bs hv
    exact drain_drains bs.length bs (Nat.le_refl _) hv

/-- C7 witness: draining the concrete valid buffer `"ok\nab"` yields its one
complete frame and leaves the partial `"ab"`. -/
theorem serial_parser_progress_witness :
    (drainFrames 5 [111, 107, 10, 97, 98]).1.length
        = ([111, 107, 10, 97, 98] : List Nat).count 10
    ∧ firstNlIdx (drainFrames 5 [111, 107, 10, 97, 98]).2 = none
    ∧ SerialParser.parse (drainFrames 5 [111, 107, 10, 97, 98]).2 = none
    ∧ ∃ pre, [111, 107, 10, 97, 98] = pre ++ (drainFrames 5 [111, 107, 10, 97, 98]).2 :=
  serial_parser_progress.2.2 [111, 107, 10, 97, 98] (by decide)

/-- C3 witness: the amended general case at a concrete line with three
arbitrary trailing fields. -/
theorem grbl_response_parsing_witness :
    Response.from_str (statusLine "Idle".data "5".data "-2".data "1.5".data
        "a".data "b".data "c>".data)
      = some (.status .idle ⟨5, -2, mkRat 3 2⟩) := by
  have h := grbl_response_parsing.2.2.1 "Idle".data .idle "5".data "-2".data "1.5".data
    "a".data "b".data "c>".data 5 (-2) (mkRat 3 2)
    rfl (by decide) (by decide) (by decide)
    (by decide) (by decide) (by decide) (by decide) (by decide) (by decide)
  exact h

end Costanza
